import Mathlib

/-!
Verification development for the nirikiri configuration state-management
engine.  The Rust sources are embedded shallowly: Rust `String` becomes
`List Char`, machine integers become `Int`/`Nat` (overflow does not matter
for the verified properties), fallible functions return `Option`/`Except`,
and in-place mutation becomes explicit state passing.  The file-system side
of `ConfigDocument::save` is modelled by an explicit `Fs` record whose
failure switches stand for the possible outcomes of `fs::copy`/`fs::write`.
-/

/-- Rust `String`/`&str`, modelled as a list of characters. -/
abbrev Str := List Char

/-- Rust `str::to_lowercase` (ASCII is all the sources need). -/
def lower (s : Str) : Str := s.map Char.toLower

/-- Rust `str::split(sep)` for a single-character pattern. -/
def splitChar (sep : Char) (s : Str) : List Str :=
  match s with
  | [] => [[]]
  | c :: rest =>
    match splitChar sep rest with
    | [] => [[]]
    | seg :: segs => if c = sep then [] :: seg :: segs else (c :: seg) :: segs

/-- Rust `combo.split('+')`. -/
def splitPlus (s : Str) : List Str := splitChar '+' s

/-- Rust `Vec::join("+")`. -/
def joinPlus : List Str → Str
  | [] => []
  | [s] => s
  | s :: rest => s ++ '+' :: joinPlus rest

/-- Rust `str::contains(sub)`: substring test. -/
def strContainsSub (hay sub : Str) : Bool :=
  sub.isPrefixOf hay ||
    match hay with
    | [] => false
    | _ :: t => strContainsSub t sub

/-! ## The KDL document model (the `kdl` crate as used by the sources) -/

/-- A KDL scalar value (`kdl::KdlValue`), restricted to the variants the
sources produce and inspect. -/
inductive KdlVal where
  | str (s : Str)
  | int (n : Int)
  | bool (b : Bool)
deriving DecidableEq

def KdlVal.asString : KdlVal → Option Str
  | .str s => some s
  | _ => none

def KdlVal.asInteger : KdlVal → Option Int
  | .int n => some n
  | _ => none

def KdlVal.asBool : KdlVal → Option Bool
  | .bool b => some b
  | _ => none

/-- A KDL entry (`kdl::KdlEntry`): a positional argument (`key = none`) or a
named property (`key = some name`). -/
structure KdlEntry where
  key : Option Str
  val : KdlVal
deriving DecidableEq

/-- A KDL node: name, entries, optional child block. -/
inductive KdlNode where
  | mk (name : Str) (entries : List KdlEntry) (children : Option (List KdlNode))

def KdlNode.name : KdlNode → Str
  | .mk n _ _ => n

def KdlNode.entries : KdlNode → List KdlEntry
  | .mk _ e _ => e

def KdlNode.children : KdlNode → Option (List KdlNode)
  | .mk _ _ c => c

@[simp] theorem KdlNode.name_mk (n : Str) (e : List KdlEntry)
    (c : Option (List KdlNode)) : (KdlNode.mk n e c).name = n := rfl

@[simp] theorem KdlNode.entries_mk (n : Str) (e : List KdlEntry)
    (c : Option (List KdlNode)) : (KdlNode.mk n e c).entries = e := rfl

@[simp] theorem KdlNode.children_mk (n : Str) (e : List KdlEntry)
    (c : Option (List KdlNode)) : (KdlNode.mk n e c).children = c := rfl

def KdlNode.withChildren : KdlNode → List KdlNode → KdlNode
  | .mk n e _, c => .mk n e (some c)

def KdlNode.withEntries : KdlNode → List KdlEntry → KdlNode
  | .mk n _ c, e => .mk n e c

/-- `kdl::KdlNode::get(i)` for a numeric key: the i-th positional argument. -/
def KdlNode.getArg (n : KdlNode) (i : Nat) : Option KdlVal :=
  ((n.entries.filter fun e => e.key = none).get? i).map KdlEntry.val

/-- `kdl::KdlNode::get(name)` for a string key: first property of that name. -/
def KdlNode.getProp (n : KdlNode) (key : Str) : Option KdlVal :=
  ((n.entries.find? fun e => e.key = some key)).map KdlEntry.val

/-- `ConfigDocument`: the parsed config file (the path plays no role in the
verified properties and is omitted). -/
structure ConfigDocument where
  nodes : List KdlNode

/-! ## The file system model for `ConfigDocument::save` -/

/-- Errors surfaced by the save pipeline. -/
inductive SaveErr where
  | noBinds
  | backupFailed
  | writeFailed
deriving DecidableEq

/-- The file-system state visible to `ConfigDocument::save`.  The disk holds
the parsed form of the config file.  `copyFails`/`writeFails` choose the
outcome of `fs::copy` and `fs::write`; `failedWriteDisk` is the (arbitrary)
on-disk content a failed `fs::write` leaves behind. -/
structure Fs where
  onDisk : Option (List KdlNode)
  backup : Option (List KdlNode)
  copyFails : Bool
  writeFails : Bool
  failedWriteDisk : Option (List KdlNode)

/-- `ConfigDocument::save`: back up the current on-disk file (aborting on a
copy failure, leaving the original untouched), then serialize the in-memory
tree over the original file. -/
def ConfigDocument.save (c : ConfigDocument) (fs : Fs) : Option SaveErr × Fs :=
  if fs.onDisk.isSome then
    if fs.copyFails then (some .backupFailed, fs)
    else if fs.writeFails then
      (some .writeFailed, { fs with backup := fs.onDisk, onDisk := fs.failedWriteDisk })
    else (none, { fs with backup := fs.onDisk, onDisk := some c.nodes })
  else
    if fs.writeFails then (some .writeFailed, { fs with onDisk := fs.failedWriteDisk })
    else (none, { fs with onDisk := some c.nodes })

/-! ## Keybindings domain model (`src/model/keybindings.rs`) -/

/-- Modifier keys for a keybinding. -/
structure Modifiers where
  mod_key : Bool
  ctrl : Bool
  shift : Bool
  alt : Bool
deriving DecidableEq

def Modifiers.default : Modifiers := ⟨false, false, false, false⟩

/-- One step of the modifier-keyword loop in `Modifiers::parse`. -/
def applyModKeyword (m : Modifiers) (part : Str) : Modifiers :=
  let p := lower part
  if p = "mod".toList ∨ p = "super".toList ∨ p = "logo".toList then { m with mod_key := true }
  else if p = "ctrl".toList ∨ p = "control".toList then { m with ctrl := true }
  else if p = "shift".toList then { m with shift := true }
  else if p = "alt".toList then { m with alt := true }
  else m

/-- `Modifiers::parse`: split the combo on `'+'`, take the last segment as
the key, and fold the modifier keywords over the remaining segments. -/
def Modifiers.parse (combo : Str) : Modifiers × Str :=
  let parts := splitPlus combo
  let key := (parts.getLast?).getD []
  let mods := (parts.dropLast).foldl applyModKeyword Modifiers.default
  (mods, key)

/-- The keyword parts collected by `impl Display for Modifiers`. -/
def modKeywords (m : Modifiers) : List Str :=
  (if m.mod_key then ["Mod".toList] else []) ++
  (if m.ctrl then ["Ctrl".toList] else []) ++
  (if m.shift then ["Shift".toList] else []) ++
  (if m.alt then ["Alt".toList] else [])

/-- `impl Display for Modifiers`. -/
def Modifiers.render (m : Modifiers) : Str :=
  joinPlus (modKeywords m)

structure BindingProperties where
  «repeat» : Option Bool
  cooldown_ms : Option Nat
  allow_when_locked : Option Bool
deriving DecidableEq

def BindingProperties.default : BindingProperties := ⟨none, none, none⟩

inductive BindingArg where
  | number (n : Int)
  | string (s : Str)
  | bool (b : Bool)
deriving DecidableEq

inductive BindingAction where
  | spawn (args : List Str)
  | spawnSh (cmd : Str)
  | simple (name : Str)
  | withArg (name : Str) (arg : BindingArg)
deriving DecidableEq

/-- `BindingArg` as shown by `Display` (only needed by `short_description`). -/
def BindingArg.render : BindingArg → Str
  | .number n => (toString n).toList
  | .string s => s
  | .bool b => (toString b).toList

/-- `BindingAction::short_description`. -/
def BindingAction.short_description : BindingAction → Str
  | .spawn args =>
    match args.head? with
    | some cmd =>
      let cmd_name := ((splitChar '/' cmd).getLast?).getD cmd
      if args.length > 1 then cmd_name ++ " ...".toList else cmd_name
    | none => "spawn".toList
  | .spawnSh cmd => if cmd.length > 20 then cmd.take 20 ++ "...".toList else cmd
  | .simple name => name
  | .withArg name arg => name ++ ' ' :: arg.render

/-- A single keybinding entry. -/
structure Keybinding where
  modifiers : Modifiers
  key : Str
  properties : BindingProperties
  action : BindingAction
  kdl_index : Option Nat
deriving DecidableEq

/-- `Keybinding::combo`: the full combo string, e.g. `"Mod+Shift+T"`. -/
def Keybinding.combo (b : Keybinding) : Str :=
  let mods := b.modifiers.render
  if mods = [] then b.key else mods ++ '+' :: b.key

/-- `Keybinding::matches_search`. -/
def Keybinding.matches_search (b : Keybinding) (query : Str) : Bool :=
  let q := lower query
  strContainsSub (lower b.combo) q || strContainsSub (lower b.action.short_description) q

inductive KeybindingChange where
  | Add (binding : Keybinding)
  | Modify (index : Nat) (new : Keybinding)
  | Delete (index : Nat)
deriving DecidableEq

inductive BindingStatus where
  | Unchanged
  | Modified
  | Added
deriving DecidableEq

structure EffectiveBinding where
  binding : Keybinding
  original_index : Option Nat
  status : BindingStatus
deriving DecidableEq

/-- View model for the keybindings category (UI-only fields that the verified
operations never read are omitted). -/
structure KeybindingsViewModel where
  bindings : List Keybinding
  selected_index : Nat
  scroll_offset : Nat
  search_query : Str
  pending_changes : List KeybindingChange

/-- The set of deleted base indices built from the change list. -/
def isDeleted (changes : List KeybindingChange) (idx : Nat) : Bool :=
  changes.any fun c =>
    match c with
    | .Delete i => i == idx
    | _ => false

/-- The modified-index map built from the change list; collecting into a
`HashMap` lets a later `Modify` for the same index overwrite an earlier one. -/
def modifiedAt (changes : List KeybindingChange) (idx : Nat) : Option Keybinding :=
  changes.foldl
    (fun acc c =>
      match c with
      | .Modify i nb => if i == idx then some nb else acc
      | _ => acc)
    none

/-- The base-list walk of `effective_bindings`, with the running enumeration
index made explicit. -/
def effCore (changes : List KeybindingChange) : Nat → List Keybinding → List EffectiveBinding
  | _, [] => []
  | idx, b :: rest =>
    let tail := effCore changes (idx + 1) rest
    if isDeleted changes idx then tail
    else
      match modifiedAt changes idx with
      | some nb => ⟨nb, some idx, .Modified⟩ :: tail
      | none => ⟨b, some idx, .Unchanged⟩ :: tail

/-- The trailing `Added` entries of `effective_bindings`. -/
def addedList (changes : List KeybindingChange) : List EffectiveBinding :=
  changes.filterMap fun c =>
    match c with
    | .Add b => some ⟨b, none, .Added⟩
    | _ => none

/-- `KeybindingsViewModel::effective_bindings`. -/
def effective_bindings (vm : KeybindingsViewModel) : List EffectiveBinding :=
  effCore vm.pending_changes 0 vm.bindings ++ addedList vm.pending_changes

/-- `KeybindingsViewModel::filtered_bindings`. -/
def filtered_bindings (vm : KeybindingsViewModel) : List EffectiveBinding :=
  let effective := effective_bindings vm
  if vm.search_query = [] then effective
  else effective.filter fun eb => eb.binding.matches_search vm.search_query

/-- `KeybindingsViewModel::visible_count`. -/
def visible_count (vm : KeybindingsViewModel) : Nat :=
  (filtered_bindings vm).length

/-! ## Keybindings parsing (`src/config/keybindings_parser.rs`) -/

/-- `parse_binding_properties`: fold the named entries of a bind node. -/
def parse_binding_properties (node : KdlNode) : BindingProperties :=
  node.entries.foldl
    (fun props e =>
      match e.key with
      | some name =>
        if name = "repeat".toList then
          match e.val.asBool with
          | some v => { props with «repeat» := some v }
          | none => props
        else if name = "cooldown-ms".toList then
          match e.val.asInteger with
          | some v => { props with cooldown_ms := some v.toNat }
          | none => props
        else if name = "allow-when-locked".toList then
          match e.val.asBool with
          | some v => { props with allow_when_locked := some v }
          | none => props
        else props
      | none => props)
    BindingProperties.default

/-- `parse_binding_action`: derive the action from the node's first child. -/
def parse_binding_action (node : KdlNode) : Option BindingAction := do
  let children ← node.children
  let action_node ← children.head?
  let action_name := action_node.name
  if action_name = "spawn".toList then
    let args := (action_node.entries.filter fun e => e.key = none).filterMap
      fun e => e.val.asString
    if args = [] then none else some (.spawn args)
  else if action_name = "spawn-sh".toList then
    let cmd ← (action_node.getArg 0).bind KdlVal.asString
    some (.spawnSh cmd)
  else
    let posEntries := action_node.entries.filter fun e => e.key = none
    match posEntries.head? with
    | none => some (.simple action_name)
    | some e =>
      match e.val.asInteger with
      | some n => some (.withArg action_name (.number n))
      | none =>
        match e.val.asString with
        | some s => some (.withArg action_name (.string s))
        | none =>
          match e.val.asBool with
          | some b => some (.withArg action_name (.bool b))
          | none => some (.simple action_name)

/-- `parse_single_binding`. -/
def parse_single_binding (node : KdlNode) (index : Nat) : Option Keybinding :=
  let combo := node.name
  if "/-".toList.isPrefixOf combo then none
  else
    let (modifiers, key) := Modifiers.parse combo
    let properties := parse_binding_properties node
    match parse_binding_action node with
    | none => none
    | some action => some ⟨modifiers, key, properties, action, some index⟩

/-- `parse_keybindings`: scan the children of the first `binds` node. -/
def parse_keybindings (config : ConfigDocument) : List Keybinding :=
  match config.nodes.find? fun n => n.name = "binds".toList with
  | some binds =>
    match binds.children with
    | some children =>
      (children.enum).filterMap fun p => parse_single_binding p.2 p.1
    | none => []
  | none => []

/-! ## Keybindings writing (`src/config/keybindings_writer.rs`) -/

/-- The comparator given to `sort_by` in `write_keybindings`. -/
def cmpChange : KeybindingChange → KeybindingChange → Ordering
  | .Delete i1, .Delete i2 => compare i2 i1
  | .Delete _, _ => .lt
  | _, .Delete _ => .gt
  | .Modify i1 _, .Modify i2 _ => compare i1 i2
  | .Modify _ _, _ => .lt
  | _, .Modify _ _ => .gt
  | _, _ => .eq

/-- Stable insertion wrt a comparator: the new element passes every strictly
smaller element and stops in front of the first equal-or-greater one. -/
def stableInsert (cmp : α → α → Ordering) (a : α) : List α → List α
  | [] => [a]
  | b :: rest => if cmp a b = .gt then b :: stableInsert cmp a rest else a :: b :: rest

/-- A stable sort wrt a comparator; models Rust's (stable) `sort_by`. -/
def stableSort (cmp : α → α → Ordering) : List α → List α
  | [] => []
  | x :: xs => stableInsert cmp x (stableSort cmp xs)

/-- `create_action_node`. -/
def create_action_node : BindingAction → KdlNode
  | .spawn args => .mk "spawn".toList (args.map fun a => ⟨none, .str a⟩) none
  | .spawnSh cmd => .mk "spawn-sh".toList [⟨none, .str cmd⟩] none
  | .simple name => .mk name [] none
  | .withArg name arg =>
    let value : KdlVal :=
      match arg with
      | .number n => .int n
      | .string s => .str s
      | .bool b => .bool b
    .mk name [⟨none, value⟩] none

/-- `create_keybinding_node`. -/
def create_keybinding_node (binding : Keybinding) : KdlNode :=
  let props :=
    (match binding.properties.«repeat» with
     | some r => [(⟨some "repeat".toList, .bool r⟩ : KdlEntry)]
     | none => []) ++
    (match binding.properties.cooldown_ms with
     | some c => [(⟨some "cooldown-ms".toList, .int c⟩ : KdlEntry)]
     | none => []) ++
    (match binding.properties.allow_when_locked with
     | some a => [(⟨some "allow-when-locked".toList, .bool a⟩ : KdlEntry)]
     | none => [])
  .mk binding.combo props (some [create_action_node binding.action])

/-- One loop iteration of `write_keybindings` over the binds children. -/
def applyChange (nodes : List KdlNode) : KeybindingChange → List KdlNode
  | .Delete index => if index < nodes.length then nodes.eraseIdx index else nodes
  | .Modify index new =>
    if index < nodes.length then nodes.set index (create_keybinding_node new) else nodes
  | .Add binding => nodes ++ [create_keybinding_node binding]

/-- `write_keybindings`: locate the binds block (an absent block is a fatal
lookup error), sort the changes with the comparator, apply them one at a
time, then save.  The mutated document is returned in both outcomes because
the Rust function mutates the document through `&mut` before saving. -/
def write_keybindings (config : ConfigDocument) (changes : List KeybindingChange)
    (fs : Fs) : ConfigDocument × Option SaveErr × Fs :=
  match config.nodes.findIdx? fun n => n.name = "binds".toList with
  | none => (config, some .noBinds, fs)
  | some binds_idx =>
    let binds_node := (config.nodes.get? binds_idx).getD (.mk "binds".toList [] none)
    let children := (binds_node.children).getD []
    let children' := (stableSort cmpChange changes).foldl applyChange children
    let config' : ConfigDocument :=
      ⟨config.nodes.set binds_idx (binds_node.withChildren children')⟩
    let (err, fs') := config'.save fs
    (config', err, fs')

/-! ## App-level keybinding operations (`src/app.rs`) -/

/-- The error slot of the app, by cause. -/
inductive AppError where
  | noConfigLoaded
  | saveFailed (e : SaveErr)
  | reloadFailed
deriving DecidableEq

/-- The app state the keybinding save/delete operations touch. -/
structure AppKb where
  config : Option ConfigDocument
  kvm : KeybindingsViewModel
  error : Option AppError

/-- `App::save_keybindings_config`.  `reloadOk` is the outcome of the
external `reload_config` collaborator call on the success path. -/
def save_keybindings_config (st : AppKb) (fs : Fs) (reloadOk : Bool) : AppKb × Fs :=
  if st.kvm.pending_changes = [] then (st, fs)
  else
    match st.config with
    | none => ({ st with error := some .noConfigLoaded }, fs)
    | some config =>
      match write_keybindings config st.kvm.pending_changes fs with
      | (config', none, fs') =>
        ({ config := some config'
           kvm := { st.kvm with
                      bindings := parse_keybindings config'
                      pending_changes := []
                      selected_index := 0 }
           error := if reloadOk then none else some .reloadFailed }, fs')
      | (config', some e, fs') =>
        ({ st with config := some config', error := some (.saveFailed e) }, fs')

/-- `App::delete_selected_keybinding`. -/
def delete_selected_keybinding (vm : KeybindingsViewModel) : KeybindingsViewModel :=
  match (filtered_bindings vm).get? vm.selected_index with
  | none => vm
  | some eb =>
    let vm1 :=
      match eb.original_index with
      | some original_index =>
        { vm with pending_changes := vm.pending_changes ++ [.Delete original_index] }
      | none =>
        { vm with pending_changes := vm.pending_changes.filter fun c =>
            !(match c with
              | .Add b => b.combo == eb.binding.combo
              | _ => false) }
    let count := visible_count vm1
    if count - 1 ≤ vm1.selected_index then { vm1 with selected_index := count - 2 }
    else vm1

/-! ## Appearance domain model (`src/model/appearance.rs`) -/

/-- A color value: solid or gradient. -/
inductive ColorValue where
  | Solid (color : Str)
  | Gradient (gfrom gto : Str) (angle : Option Int)
      (relative_to color_space : Option Str)
deriving DecidableEq

def ColorValue.default : ColorValue := .Solid "#ffffff".toList

inductive CenterFocusedColumn where
  | Never
  | Always
  | OnOverflow
deriving DecidableEq

def CenterFocusedColumn.as_str : CenterFocusedColumn → Str
  | .Never => "never".toList
  | .Always => "always".toList
  | .OnOverflow => "on-overflow".toList

def CenterFocusedColumn.from_str (s : Str) : Option CenterFocusedColumn :=
  if s = "never".toList then some .Never
  else if s = "always".toList then some .Always
  else if s = "on-overflow".toList then some .OnOverflow
  else none

def CenterFocusedColumn.next : CenterFocusedColumn → CenterFocusedColumn
  | .Never => .Always
  | .Always => .OnOverflow
  | .OnOverflow => .Never

def CenterFocusedColumn.prev : CenterFocusedColumn → CenterFocusedColumn
  | .Never => .OnOverflow
  | .Always => .Never
  | .OnOverflow => .Always

structure FocusRingSettings where
  off : Bool
  width : Int
  active_color : ColorValue
  inactive_color : ColorValue
  active_gradient : Option ColorValue
  inactive_gradient : Option ColorValue
deriving DecidableEq

def FocusRingSettings.default : FocusRingSettings :=
  { off := false
    width := 4
    active_color := .Solid "#7fc8ff".toList
    inactive_color := .Solid "#505050".toList
    active_gradient := none
    inactive_gradient := none }

structure BorderSettings where
  off : Bool
  width : Int
  active_color : ColorValue
  inactive_color : ColorValue
  urgent_color : Option ColorValue
  active_gradient : Option ColorValue
  inactive_gradient : Option ColorValue
deriving DecidableEq

def BorderSettings.default : BorderSettings :=
  { off := true
    width := 4
    active_color := .Solid "#ffc87f".toList
    inactive_color := .Solid "#505050".toList
    urgent_color := some (.Solid "#9b0000".toList)
    active_gradient := none
    inactive_gradient := none }

structure ShadowSettings where
  «on» : Bool
  draw_behind_window : Bool
  softness : Int
  spread : Int
  offset_x : Int
  offset_y : Int
  color : ColorValue
deriving DecidableEq

def ShadowSettings.default : ShadowSettings :=
  { «on» := false
    draw_behind_window := false
    softness := 30
    spread := 5
    offset_x := 0
    offset_y := 5
    color := .Solid "#0007".toList }

structure StrutsSettings where
  left : Option Int
  right : Option Int
  top : Option Int
  bottom : Option Int
deriving DecidableEq

def StrutsSettings.default : StrutsSettings := ⟨none, none, none, none⟩

structure AppearanceSettings where
  gaps : Int
  center_focused_column : CenterFocusedColumn
  focus_ring : FocusRingSettings
  border : BorderSettings
  shadow : ShadowSettings
  struts : StrutsSettings
deriving DecidableEq

def AppearanceSettings.default : AppearanceSettings :=
  { gaps := 16
    center_focused_column := .Never
    focus_ring := FocusRingSettings.default
    border := BorderSettings.default
    shadow := ShadowSettings.default
    struts := StrutsSettings.default }

inductive AppearanceField where
  | Gaps
  | CenterFocusedColumn
  | FocusRingOff
  | FocusRingWidth
  | FocusRingActiveColor
  | FocusRingInactiveColor
  | BorderOff
  | BorderWidth
  | BorderActiveColor
  | BorderInactiveColor
  | BorderUrgentColor
  | ShadowOn
  | ShadowDrawBehindWindow
  | ShadowSoftness
  | ShadowSpread
  | ShadowOffsetX
  | ShadowOffsetY
  | ShadowColor
  | StrutsLeft
  | StrutsRight
  | StrutsTop
  | StrutsBottom
deriving DecidableEq

inductive FieldValue where
  | Boolean (b : Bool)
  | Integer (n : Int)
  | OptionalInteger (n : Option Int)
  | String (s : Str)
  | Enum (e : CenterFocusedColumn)
  | Color (c : ColorValue)
deriving DecidableEq

structure AppearanceChange where
  field : AppearanceField
  value : FieldValue
deriving DecidableEq

/-- View model for the appearance category (UI-only fields omitted). -/
structure AppearanceViewModel where
  settings : AppearanceSettings
  original_settings : AppearanceSettings
  pending_changes : List AppearanceChange

/-- `AppearanceViewModel::get_field_value`. -/
def get_field_value (vm : AppearanceViewModel) : AppearanceField → FieldValue
  | .Gaps => .Integer vm.settings.gaps
  | .CenterFocusedColumn => .Enum vm.settings.center_focused_column
  | .FocusRingOff => .Boolean vm.settings.focus_ring.off
  | .FocusRingWidth => .Integer vm.settings.focus_ring.width
  | .FocusRingActiveColor => .Color vm.settings.focus_ring.active_color
  | .FocusRingInactiveColor => .Color vm.settings.focus_ring.inactive_color
  | .BorderOff => .Boolean vm.settings.border.off
  | .BorderWidth => .Integer vm.settings.border.width
  | .BorderActiveColor => .Color vm.settings.border.active_color
  | .BorderInactiveColor => .Color vm.settings.border.inactive_color
  | .BorderUrgentColor =>
    match vm.settings.border.urgent_color with
    | some c => .Color c
    | none => .String "(not set)".toList
  | .ShadowOn => .Boolean vm.settings.shadow.«on»
  | .ShadowDrawBehindWindow => .Boolean vm.settings.shadow.draw_behind_window
  | .ShadowSoftness => .Integer vm.settings.shadow.softness
  | .ShadowSpread => .Integer vm.settings.shadow.spread
  | .ShadowOffsetX => .Integer vm.settings.shadow.offset_x
  | .ShadowOffsetY => .Integer vm.settings.shadow.offset_y
  | .ShadowColor => .Color vm.settings.shadow.color
  | .StrutsLeft => .OptionalInteger vm.settings.struts.left
  | .StrutsRight => .OptionalInteger vm.settings.struts.right
  | .StrutsTop => .OptionalInteger vm.settings.struts.top
  | .StrutsBottom => .OptionalInteger vm.settings.struts.bottom

/-- The `match (field, &value)` of `set_field_value`: `some` updated settings
when an arm applies, `none` for the `_ => return` arm. -/
def applyFieldValue (s : AppearanceSettings) :
    AppearanceField → FieldValue → Option AppearanceSettings
  | .Gaps, .Integer n => some { s with gaps := n }
  | .CenterFocusedColumn, .Enum e => some { s with center_focused_column := e }
  | .FocusRingOff, .Boolean b => some { s with focus_ring.off := b }
  | .FocusRingWidth, .Integer n => some { s with focus_ring.width := n }
  | .FocusRingActiveColor, .Color c => some { s with focus_ring.active_color := c }
  | .FocusRingInactiveColor, .Color c => some { s with focus_ring.inactive_color := c }
  | .BorderOff, .Boolean b => some { s with border.off := b }
  | .BorderWidth, .Integer n => some { s with border.width := n }
  | .BorderActiveColor, .Color c => some { s with border.active_color := c }
  | .BorderInactiveColor, .Color c => some { s with border.inactive_color := c }
  | .BorderUrgentColor, .Color c => some { s with border.urgent_color := some c }
  | .ShadowOn, .Boolean b => some { s with shadow.«on» := b }
  | .ShadowDrawBehindWindow, .Boolean b => some { s with shadow.draw_behind_window := b }
  | .ShadowSoftness, .Integer n => some { s with shadow.softness := n }
  | .ShadowSpread, .Integer n => some { s with shadow.spread := n }
  | .ShadowOffsetX, .Integer n => some { s with shadow.offset_x := n }
  | .ShadowOffsetY, .Integer n => some { s with shadow.offset_y := n }
  | .ShadowColor, .Color c => some { s with shadow.color := c }
  | .StrutsLeft, .OptionalInteger o => some { s with struts.left := o }
  | .StrutsRight, .OptionalInteger o => some { s with struts.right := o }
  | .StrutsTop, .OptionalInteger o => some { s with struts.top := o }
  | .StrutsBottom, .OptionalInteger o => some { s with struts.bottom := o }
  | _, _ => none

/-- `AppearanceViewModel::set_field_value`: apply the matching arm (or return
unchanged), then drop any prior pending change for the field and append the
new one. -/
def set_field_value (vm : AppearanceViewModel) (field : AppearanceField)
    (value : FieldValue) : AppearanceViewModel :=
  match applyFieldValue vm.settings field value with
  | none => vm
  | some s' =>
    { vm with
        settings := s'
        pending_changes :=
          (vm.pending_changes.filter fun c => c.field ≠ field) ++ [⟨field, value⟩] }

/-- `AppearanceViewModel::toggle_boolean`. -/
def toggle_boolean (vm : AppearanceViewModel) (field : AppearanceField) :
    AppearanceViewModel :=
  match get_field_value vm field with
  | .Boolean current => set_field_value vm field (.Boolean (!current))
  | _ => vm

/-- `AppearanceViewModel::increment_field`. -/
def increment_field (vm : AppearanceViewModel) (field : AppearanceField)
    (amount : Int) : AppearanceViewModel :=
  match get_field_value vm field with
  | .Integer n => set_field_value vm field (.Integer (n + amount))
  | .OptionalInteger o => set_field_value vm field (.OptionalInteger (some (o.getD 0 + amount)))
  | _ => vm

/-- `AppearanceViewModel::cycle_enum`. -/
def cycle_enum (vm : AppearanceViewModel) (field : AppearanceField)
    (forward : Bool) : AppearanceViewModel :=
  match get_field_value vm field with
  | .Enum current =>
    set_field_value vm field (.Enum (if forward then current.next else current.prev))
  | _ => vm

/-! ## Appearance parsing (`src/config/appearance_parser.rs`) -/

/-- `parse_color_value`: the first positional argument as a solid color. -/
def parse_color_value (node : KdlNode) : Option ColorValue :=
  ((node.getArg 0).bind KdlVal.asString).map ColorValue.Solid

/-- `parse_gradient`: `from`/`to` are required, the rest optional. -/
def parse_gradient (node : KdlNode) : Option ColorValue := do
  let gfrom ← (node.getProp "from".toList).bind KdlVal.asString
  let gto ← (node.getProp "to".toList).bind KdlVal.asString
  let angle := (node.getProp "angle".toList).bind KdlVal.asInteger
  let relative_to := (node.getProp "relative-to".toList).bind KdlVal.asString
  let color_space := (node.getProp "in".toList).bind KdlVal.asString
  some (.Gradient gfrom gto angle relative_to color_space)

/-- One child of the focus-ring block (`parse_focus_ring` loop body). -/
def stepFocusRing (s : FocusRingSettings) (child : KdlNode) : FocusRingSettings :=
  if child.name = "off".toList then { s with off := true }
  else if child.name = "width".toList then
    match (child.getArg 0).bind KdlVal.asInteger with
    | some v => { s with width := v }
    | none => s
  else if child.name = "active-color".toList then
    match parse_color_value child with
    | some c => { s with active_color := c }
    | none => s
  else if child.name = "inactive-color".toList then
    match parse_color_value child with
    | some c => { s with inactive_color := c }
    | none => s
  else if child.name = "active-gradient".toList then
    match parse_gradient child with
    | some g => { s with active_color := g, active_gradient := some g }
    | none => s
  else if child.name = "inactive-gradient".toList then
    match parse_gradient child with
    | some g => { s with inactive_color := g, inactive_gradient := some g }
    | none => s
  else s

def parse_focus_ring (node : KdlNode) : FocusRingSettings :=
  ((node.children).getD []).foldl stepFocusRing FocusRingSettings.default

/-- One child of the border block (`parse_border` loop body). -/
def stepBorder (s : BorderSettings) (child : KdlNode) : BorderSettings :=
  if child.name = "off".toList then { s with off := true }
  else if child.name = "on".toList then { s with off := false }
  else if child.name = "width".toList then
    match (child.getArg 0).bind KdlVal.asInteger with
    | some v => { s with width := v }
    | none => s
  else if child.name = "active-color".toList then
    match parse_color_value child with
    | some c => { s with active_color := c }
    | none => s
  else if child.name = "inactive-color".toList then
    match parse_color_value child with
    | some c => { s with inactive_color := c }
    | none => s
  else if child.name = "urgent-color".toList then { s with urgent_color := parse_color_value child }
  else if child.name = "active-gradient".toList then
    match parse_gradient child with
    | some g => { s with active_color := g, active_gradient := some g }
    | none => s
  else if child.name = "inactive-gradient".toList then
    match parse_gradient child with
    | some g => { s with inactive_color := g, inactive_gradient := some g }
    | none => s
  else if child.name = "urgent-gradient".toList then
    match parse_gradient child with
    | some g => { s with urgent_color := some g }
    | none => s
  else s

def parse_border (node : KdlNode) : BorderSettings :=
  ((node.children).getD []).foldl stepBorder BorderSettings.default

/-- One child of the shadow block (`parse_shadow` loop body). -/
def stepShadow (s : ShadowSettings) (child : KdlNode) : ShadowSettings :=
  if child.name = "on".toList then { s with «on» := true }
  else if child.name = "draw-behind-window".toList then
    match (child.getArg 0).bind KdlVal.asBool with
    | some v => { s with draw_behind_window := v }
    | none => { s with draw_behind_window := true }
  else if child.name = "softness".toList then
    match (child.getArg 0).bind KdlVal.asInteger with
    | some v => { s with softness := v }
    | none => s
  else if child.name = "spread".toList then
    match (child.getArg 0).bind KdlVal.asInteger with
    | some v => { s with spread := v }
    | none => s
  else if child.name = "offset".toList then
    let s1 :=
      match (child.getProp "x".toList).bind KdlVal.asInteger with
      | some x => { s with offset_x := x }
      | none => s
    match (child.getProp "y".toList).bind KdlVal.asInteger with
    | some y => { s1 with offset_y := y }
    | none => s1
  else if child.name = "color".toList then
    match parse_color_value child with
    | some c => { s with color := c }
    | none => s
  else s

def parse_shadow (node : KdlNode) : ShadowSettings :=
  ((node.children).getD []).foldl stepShadow ShadowSettings.default

/-- One child of the struts block (`parse_struts` loop body). -/
def stepStruts (s : StrutsSettings) (child : KdlNode) : StrutsSettings :=
  let value := (child.getArg 0).bind KdlVal.asInteger
  if child.name = "left".toList then { s with left := value }
  else if child.name = "right".toList then { s with right := value }
  else if child.name = "top".toList then { s with top := value }
  else if child.name = "bottom".toList then { s with bottom := value }
  else s

def parse_struts (node : KdlNode) : StrutsSettings :=
  ((node.children).getD []).foldl stepStruts StrutsSettings.default

/-- One direct child of the layout block (`parse_layout_block` loop body). -/
def stepLayout (s : AppearanceSettings) (child : KdlNode) : AppearanceSettings :=
  if child.name = "gaps".toList then
    match (child.getArg 0).bind KdlVal.asInteger with
    | some v => { s with gaps := v }
    | none => s
  else if child.name = "center-focused-column".toList then
    match ((child.getArg 0).bind KdlVal.asString).bind CenterFocusedColumn.from_str with
    | some cfc => { s with center_focused_column := cfc }
    | none => s
  else if child.name = "focus-ring".toList then { s with focus_ring := parse_focus_ring child }
  else if child.name = "border".toList then { s with border := parse_border child }
  else if child.name = "shadow".toList then { s with shadow := parse_shadow child }
  else if child.name = "struts".toList then { s with struts := parse_struts child }
  else s

def parse_layout_block (node : KdlNode) (s : AppearanceSettings) : AppearanceSettings :=
  ((node.children).getD []).foldl stepLayout s

/-- `parse_appearance`: parse the first top-level `layout` node. -/
def parse_appearance (config : ConfigDocument) : AppearanceSettings :=
  match config.nodes.find? fun n => n.name = "layout".toList with
  | some node => parse_layout_block node AppearanceSettings.default
  | none => AppearanceSettings.default

/-! ## Appearance writing (`src/config/appearance_writer.rs`) -/

/-- `remove_node`: retain every child not carrying the name. -/
def remove_node (children : List KdlNode) (name : Str) : List KdlNode :=
  children.filter fun n => n.name ≠ name

/-- Apply `f` to the first child carrying the name (helper for the
`iter_mut().find(..)` update-in-place pattern). -/
def mapFirstNamed (name : Str) (f : KdlNode → KdlNode) : List KdlNode → List KdlNode
  | [] => []
  | n :: rest => if n.name = name then f n :: rest else n :: mapFirstNamed name f rest

/-- `update_or_add_simple_value`. -/
def update_or_add_simple_value (children : List KdlNode) (name : Str)
    (value : KdlVal) : List KdlNode :=
  if children.any fun n => n.name = name then
    mapFirstNamed name (fun n => n.withEntries [⟨none, value⟩]) children
  else children ++ [.mk name [⟨none, value⟩] none]

/-- `update_toggle_node`. -/
def update_toggle_node (children : List KdlNode) (name : Str) (enabled : Bool) :
    List KdlNode :=
  if enabled ∧ ¬(children.any fun n => n.name = name) then children ++ [.mk name [] none]
  else if ¬enabled ∧ (children.any fun n => n.name = name) then remove_node children name
  else children

/-- The gradient node built by `update_gradient`. -/
def gradientNode (name : Str) (gfrom gto : Str) (angle : Option Int)
    (relative_to color_space : Option Str) : KdlNode :=
  .mk name
    ([(⟨some "from".toList, .str gfrom⟩ : KdlEntry),
      ⟨some "to".toList, .str gto⟩] ++
     (match angle with
      | some a => [(⟨some "angle".toList, .int a⟩ : KdlEntry)]
      | none => []) ++
     (match relative_to with
      | some r => [(⟨some "relative-to".toList, .str r⟩ : KdlEntry)]
      | none => []) ++
     (match color_space with
      | some c => [(⟨some "in".toList, .str c⟩ : KdlEntry)]
      | none => []))
    none

/-- `update_gradient`: remove any node of that name, then append the
gradient node; a solid value leaves the children untouched. -/
def update_gradient (children : List KdlNode) (name : Str) : ColorValue → List KdlNode
  | .Gradient gfrom gto angle relative_to color_space =>
    remove_node children name ++ [gradientNode name gfrom gto angle relative_to color_space]
  | .Solid _ => children

/-- `update_color`. -/
def update_color (children : List KdlNode) (name : Str) : ColorValue → List KdlNode
  | .Solid c => update_or_add_simple_value children name (.str c)
  | g => update_gradient children name g

/-- `update_offset`. -/
def update_offset (children : List KdlNode) (x y : Int) : List KdlNode :=
  remove_node children "offset".toList ++
    [.mk "offset".toList [⟨some "x".toList, .int x⟩, ⟨some "y".toList, .int y⟩] none]

/-- `update_optional_value`. -/
def update_optional_value (children : List KdlNode) (name : Str) :
    Option Int → List KdlNode
  | some v => update_or_add_simple_value children name (.int v)
  | none => remove_node children name

/-- The find-or-create-then-mutate pattern used for every sub-block:
mutate the children of the first node carrying the name in place, or append
a fresh node whose children are built from scratch. -/
def upsertBlock (parent : List KdlNode) (name : Str)
    (body : List KdlNode → List KdlNode) : List KdlNode :=
  match parent with
  | [] => [.mk name [] (some (body []))]
  | n :: rest =>
    if n.name = name then n.withChildren (body ((n.children).getD [])) :: rest
    else n :: upsertBlock rest name body

/-- The focus-ring child pipeline of `update_focus_ring`. -/
def focusRingBody (s : FocusRingSettings) (ch : List KdlNode) : List KdlNode :=
  let ch := update_toggle_node ch "off".toList s.off
  let ch := update_or_add_simple_value ch "width".toList (.int s.width)
  let ch := update_color ch "active-color".toList s.active_color
  let ch := update_color ch "inactive-color".toList s.inactive_color
  let ch :=
    match s.active_gradient with
    | some g => update_gradient ch "active-gradient".toList g
    | none => remove_node ch "active-gradient".toList
  match s.inactive_gradient with
  | some g => update_gradient ch "inactive-gradient".toList g
  | none => remove_node ch "inactive-gradient".toList

def update_focus_ring (parent : List KdlNode) (s : FocusRingSettings) : List KdlNode :=
  upsertBlock parent "focus-ring".toList (focusRingBody s)

/-- The border child pipeline of `update_border`. -/
def borderBody (s : BorderSettings) (ch : List KdlNode) : List KdlNode :=
  let ch :=
    if s.off then remove_node (update_toggle_node ch "off".toList true) "on".toList
    else remove_node (update_toggle_node ch "on".toList true) "off".toList
  let ch := update_or_add_simple_value ch "width".toList (.int s.width)
  let ch := update_color ch "active-color".toList s.active_color
  let ch := update_color ch "inactive-color".toList s.inactive_color
  let ch :=
    match s.urgent_color with
    | some c => update_color ch "urgent-color".toList c
    | none => remove_node ch "urgent-color".toList
  let ch :=
    match s.active_gradient with
    | some g => update_gradient ch "active-gradient".toList g
    | none => remove_node ch "active-gradient".toList
  match s.inactive_gradient with
  | some g => update_gradient ch "inactive-gradient".toList g
  | none => remove_node ch "inactive-gradient".toList

def update_border (parent : List KdlNode) (s : BorderSettings) : List KdlNode :=
  upsertBlock parent "border".toList (borderBody s)

/-- The shadow child pipeline of `update_shadow`. -/
def shadowBody (s : ShadowSettings) (ch : List KdlNode) : List KdlNode :=
  let ch := update_toggle_node ch "on".toList s.«on»
  let ch :=
    if s.draw_behind_window then
      update_or_add_simple_value ch "draw-behind-window".toList (.bool true)
    else remove_node ch "draw-behind-window".toList
  let ch := update_or_add_simple_value ch "softness".toList (.int s.softness)
  let ch := update_or_add_simple_value ch "spread".toList (.int s.spread)
  let ch := update_offset ch s.offset_x s.offset_y
  update_color ch "color".toList s.color

def update_shadow (parent : List KdlNode) (s : ShadowSettings) : List KdlNode :=
  upsertBlock parent "shadow".toList (shadowBody s)

/-- The struts child pipeline of `update_struts`. -/
def strutsBody (s : StrutsSettings) (ch : List KdlNode) : List KdlNode :=
  let ch := update_optional_value ch "left".toList s.left
  let ch := update_optional_value ch "right".toList s.right
  let ch := update_optional_value ch "top".toList s.top
  update_optional_value ch "bottom".toList s.bottom

def update_struts (parent : List KdlNode) (s : StrutsSettings) : List KdlNode :=
  upsertBlock parent "struts".toList (strutsBody s)

/-- The layout child pipeline of `write_appearance`. -/
def layoutBody (s : AppearanceSettings) (ch : List KdlNode) : List KdlNode :=
  let ch := update_or_add_simple_value ch "gaps".toList (.int s.gaps)
  let ch := update_or_add_simple_value ch "center-focused-column".toList
    (.str s.center_focused_column.as_str)
  let ch := update_focus_ring ch s.focus_ring
  let ch := update_border ch s.border
  let ch := update_shadow ch s.shadow
  update_struts ch s.struts

/-- The document mutation performed by `write_appearance` (before saving). -/
def write_appearance_doc (config : ConfigDocument) (s : AppearanceSettings) :
    ConfigDocument :=
  ⟨upsertBlock config.nodes "layout".toList (layoutBody s)⟩

/-- `write_appearance`: mutate the layout block, then save. -/
def write_appearance (config : ConfigDocument) (s : AppearanceSettings) (fs : Fs) :
    ConfigDocument × Option SaveErr × Fs :=
  let config' := write_appearance_doc config s
  let (err, fs') := config'.save fs
  (config', err, fs')

/-! ## Output domain (`src/model/output.rs`, `src/update/output_update.rs`) -/

structure Position where
  x : Int
  y : Int
deriving DecidableEq

structure Size where
  width : Nat
  height : Nat
deriving DecidableEq

/-- The output fields the verified operations read (query-only fields such
as modes and vendor strings are omitted). -/
structure OutputState where
  name : Str
  position : Position
  logical_size : Size
  enabled : Bool
  connected : Bool
  configured : Bool
deriving DecidableEq

/-- View model for the outputs category; `pending_changes` models the
name-to-position `HashMap`. -/
structure OutputViewModel where
  outputs : List OutputState
  selected_index : Nat
  pending_changes : Str → Option Position

/-- `OutputViewModel::selected_output`. -/
def selected_output (vm : OutputViewModel) : Option OutputState :=
  vm.outputs.get? vm.selected_index

/-- `OutputViewModel::get_display_position`. -/
def get_display_position (vm : OutputViewModel) (name : Str) : Option Position :=
  (vm.pending_changes name).orElse fun _ =>
    (vm.outputs.find? fun o => o.name = name).map OutputState.position

/-- `OutputViewModel::apply_pending_change` (a `HashMap::insert`). -/
def apply_pending_change (vm : OutputViewModel) (name : Str) (position : Position) :
    OutputViewModel :=
  { vm with pending_changes := fun n => if n = name then some position else vm.pending_changes n }

/-- The reference-candidate search inside `get_reference_monitor`: the first
output that is not the selected one and is enabled. -/
def firstOtherEnabled (vm : OutputViewModel) (selected : OutputState) : Option OutputState :=
  vm.outputs.find? fun o => o.name ≠ selected.name ∧ o.enabled

/-- `get_reference_monitor`: the first other enabled output, with its
effective position and its logical size. -/
def get_reference_monitor (vm : OutputViewModel) : Option (Position × Size) := do
  let selected ← selected_output vm
  let other ← firstOtherEnabled vm selected
  let pos := (get_display_position vm other.name).getD other.position
  some (pos, other.logical_size)

/-- The output-related messages handled by `update_output`. -/
inductive OutputMsg where
  | SelectNextOutput
  | SelectPrevOutput
  | SelectOutput (idx : Nat)
  | MoveOutput (dx dy : Int)
  | SetPosition (x y : Int)
  | SnapLeft
  | SnapRight
  | SnapAbove
  | SnapBelow
  | Normalize

/-- `update_output`. -/
def update_output (vm : OutputViewModel) : OutputMsg → OutputViewModel
  | .SelectNextOutput =>
    if vm.outputs.length ≠ 0 then
      { vm with selected_index := (vm.selected_index + 1) % vm.outputs.length }
    else vm
  | .SelectPrevOutput =>
    if vm.outputs.length ≠ 0 then
      { vm with selected_index :=
          if vm.selected_index = 0 then vm.outputs.length - 1 else vm.selected_index - 1 }
    else vm
  | .SelectOutput idx => if idx < vm.outputs.length then { vm with selected_index := idx } else vm
  | .MoveOutput dx dy =>
    match selected_output vm with
    | some output =>
      let current := (vm.pending_changes output.name).getD output.position
      apply_pending_change vm output.name ⟨current.x + dx, current.y + dy⟩
    | none => vm
  | .SetPosition x y =>
    match selected_output vm with
    | some output => apply_pending_change vm output.name ⟨x, y⟩
    | none => vm
  | .SnapLeft =>
    match selected_output vm, get_reference_monitor vm with
    | some output, some (ref_pos, _ref_size) =>
      apply_pending_change vm output.name
        ⟨ref_pos.x - (output.logical_size.width : Int), ref_pos.y⟩
    | _, _ => vm
  | .SnapRight =>
    match selected_output vm, get_reference_monitor vm with
    | some output, some (ref_pos, ref_size) =>
      apply_pending_change vm output.name
        ⟨ref_pos.x + (ref_size.width : Int), ref_pos.y⟩
    | _, _ => vm
  | .SnapAbove =>
    match selected_output vm, get_reference_monitor vm with
    | some output, some (ref_pos, ref_size) =>
      apply_pending_change vm output.name
        ⟨ref_pos.x + Int.tdiv ((ref_size.width : Int) - (output.logical_size.width : Int)) 2,
         ref_pos.y - (output.logical_size.height : Int)⟩
    | _, _ => vm
  | .SnapBelow =>
    match selected_output vm, get_reference_monitor vm with
    | some output, some (ref_pos, ref_size) =>
      apply_pending_change vm output.name
        ⟨ref_pos.x + Int.tdiv ((ref_size.width : Int) - (output.logical_size.width : Int)) 2,
         ref_pos.y + (ref_size.height : Int)⟩
    | _, _ => vm
  | .Normalize =>
    let enabled := vm.outputs.filter OutputState.enabled
    match enabled.map (fun o => ((get_display_position vm o.name).getD o.position).x) ,
          enabled.map (fun o => ((get_display_position vm o.name).getD o.position).y) with
    | [], _ => vm
    | x :: xs, ys =>
      let min_x := xs.foldl min x
      let min_y := (ys.tail).foldl min ((ys.head?).getD 0)
      let changes := enabled.map fun o =>
        let current := (get_display_position vm o.name).getD o.position
        (o.name, (⟨current.x - min_x, current.y - min_y⟩ : Position))
      changes.foldl (fun acc c => apply_pending_change acc c.1 c.2) vm

/-! ## C8: the appearance pending-change list holds at most one entry per field -/

/-- The invariant of claim C8: no two pending appearance changes target the
same field. -/
def PendingUnique (vm : AppearanceViewModel) : Prop :=
  vm.pending_changes.Pairwise fun a b => a.field ≠ b.field

theorem pendingUnique_set_field_value (vm : AppearanceViewModel)
    (h : PendingUnique vm) (f : AppearanceField) (v : FieldValue) :
    PendingUnique (set_field_value vm f v) := by
  unfold PendingUnique set_field_value at *
  cases happ : applyFieldValue vm.settings f v with
  | none => exact h
  | some s' =>
    simp only [List.pairwise_append]
    refine ⟨h.sublist (List.filter_sublist _), ?_, ?_⟩
    · simp
    · intro a ha b hb
      simp only [List.mem_singleton] at hb
      subst hb
      have := List.of_mem_filter ha
      simpa using this

theorem pendingUnique_toggle_boolean (vm : AppearanceViewModel)
    (h : PendingUnique vm) (f : AppearanceField) :
    PendingUnique (toggle_boolean vm f) := by
  unfold toggle_boolean
  cases get_field_value vm f <;>
    first
      | exact h
      | exact pendingUnique_set_field_value vm h f _

theorem pendingUnique_increment_field (vm : AppearanceViewModel)
    (h : PendingUnique vm) (f : AppearanceField) (amount : Int) :
    PendingUnique (increment_field vm f amount) := by
  unfold increment_field
  cases get_field_value vm f <;>
    first
      | exact h
      | exact pendingUnique_set_field_value vm h f _

theorem pendingUnique_cycle_enum (vm : AppearanceViewModel)
    (h : PendingUnique vm) (f : AppearanceField) (forward : Bool) :
    PendingUnique (cycle_enum vm f forward) := by
  unfold cycle_enum
  cases get_field_value vm f <;>
    first
      | exact h
      | exact pendingUnique_set_field_value vm h f _

theorem pendingUnique_foldl (ops : List (AppearanceField × FieldValue)) :
    ∀ vm : AppearanceViewModel, PendingUnique vm →
      PendingUnique (ops.foldl (fun acc p => set_field_value acc p.1 p.2) vm) := by
  induction ops with
  | nil => intro vm h; exact h
  | cons op rest ih =>
    intro vm h
    exact ih _ (pendingUnique_set_field_value vm h op.1 op.2)

/-- C8: every operation that records an appearance change removes any prior
pending change for the field before appending, so the pending-change list
never holds more than one entry per field; the invariant is preserved by
`set_field_value` (also along arbitrary sequences of calls),
`toggle_boolean`, `increment_field` and `cycle_enum`. -/
theorem c8_pending_at_most_one_entry_per_field (vm : AppearanceViewModel)
    (h : PendingUnique vm) :
    (∀ f v, PendingUnique (set_field_value vm f v)) ∧
    (∀ f, PendingUnique (toggle_boolean vm f)) ∧
    (∀ f amount, PendingUnique (increment_field vm f amount)) ∧
    (∀ f forward, PendingUnique (cycle_enum vm f forward)) ∧
    (∀ ops : List (AppearanceField × FieldValue),
      PendingUnique (ops.foldl (fun acc p => set_field_value acc p.1 p.2) vm)) :=
  ⟨fun f v => pendingUnique_set_field_value vm h f v,
   fun f => pendingUnique_toggle_boolean vm h f,
   fun f amount => pendingUnique_increment_field vm h f amount,
   fun f forward => pendingUnique_cycle_enum vm h f forward,
   fun ops => pendingUnique_foldl ops vm h⟩

/-- A freshly loaded appearance view model (empty pending list). -/
def c8ViewModel : AppearanceViewModel :=
  ⟨AppearanceSettings.default, AppearanceSettings.default, []⟩

/-- Witness for C8 at a concrete view model. -/
theorem c8_pending_at_most_one_entry_per_field_witness :
    PendingUnique c8ViewModel ∧
    ((∀ f v, PendingUnique (set_field_value c8ViewModel f v)) ∧
     (∀ f, PendingUnique (toggle_boolean c8ViewModel f)) ∧
     (∀ f amount, PendingUnique (increment_field c8ViewModel f amount)) ∧
     (∀ f forward, PendingUnique (cycle_enum c8ViewModel f forward)) ∧
     (∀ ops : List (AppearanceField × FieldValue),
       PendingUnique (ops.foldl (fun acc p => set_field_value acc p.1 p.2) c8ViewModel))) :=
  ⟨List.Pairwise.nil,
   c8_pending_at_most_one_entry_per_field c8ViewModel List.Pairwise.nil⟩

/-! ## C10: deleting an unsaved Added binding removes every pending Add with
the same combo -/

/-- The retain predicate of the delete-by-combo branch. -/
def keepsNonMatchingAdd (combo : Str) (c : KeybindingChange) : Bool :=
  !(match c with
    | .Add b => b.combo == combo
    | _ => false)

theorem c10_delete_selected_added_removes_all_matching_combos
    (vm : KeybindingsViewModel) (eb : EffectiveBinding)
    (hsel : (filtered_bindings vm).get? vm.selected_index = some eb)
    (hnone : eb.original_index = none) :
    ((delete_selected_keybinding vm).pending_changes =
      vm.pending_changes.filter (keepsNonMatchingAdd eb.binding.combo)) ∧
    (∀ b : Keybinding, KeybindingChange.Add b ∈ (delete_selected_keybinding vm).pending_changes →
       b.combo ≠ eb.binding.combo) := by
  have hres : (delete_selected_keybinding vm).pending_changes =
      vm.pending_changes.filter (keepsNonMatchingAdd eb.binding.combo) := by
    unfold delete_selected_keybinding
    rw [hsel]
    simp only [hnone]
    unfold keepsNonMatchingAdd
    split <;> rfl
  refine ⟨hres, ?_⟩
  intro b hb
  rw [hres] at hb
  have hkeep := List.of_mem_filter hb
  simp only [keepsNonMatchingAdd, Bool.not_eq_true'] at hkeep
  intro hcombo
  rw [hcombo] at hkeep
  simp at hkeep

def c10Binding : Keybinding :=
  ⟨⟨true, false, false, false⟩, "T".toList, BindingProperties.default,
   .simple "quit".toList, none⟩

/-- Two not-yet-saved `Add` entries sharing one combo. -/
def c10Vm : KeybindingsViewModel :=
  ⟨[], 0, 0, [], [.Add c10Binding, .Add c10Binding]⟩

def c10Eb : EffectiveBinding := ⟨c10Binding, none, .Added⟩

/-- Witness for C10: with two pending Adds sharing the combo, one delete of
the selected Added entry removes both. -/
theorem c10_delete_selected_added_removes_all_matching_combos_witness :
    ((filtered_bindings c10Vm).get? c10Vm.selected_index = some c10Eb) ∧
    c10Eb.original_index = none ∧
    (((delete_selected_keybinding c10Vm).pending_changes =
        c10Vm.pending_changes.filter (keepsNonMatchingAdd c10Eb.binding.combo)) ∧
     (∀ b : Keybinding,
        KeybindingChange.Add b ∈ (delete_selected_keybinding c10Vm).pending_changes →
          b.combo ≠ c10Eb.binding.combo)) ∧
    (delete_selected_keybinding c10Vm).pending_changes = [] :=
  ⟨by decide, by decide,
   c10_delete_selected_added_removes_all_matching_combos c10Vm c10Eb (by decide) (by decide),
   by decide⟩

/-! ## C7: snap geometry against the first other enabled output -/

theorem c7_snap_reference_geometry (vm : OutputViewModel) (o : OutputState)
    (hsel : selected_output vm = some o) :
    (∀ r : OutputState, firstOtherEnabled vm o = some r →
       (update_output vm .SnapRight =
          apply_pending_change vm o.name
            ⟨((get_display_position vm r.name).getD r.position).x + (r.logical_size.width : Int),
             ((get_display_position vm r.name).getD r.position).y⟩) ∧
       (update_output vm .SnapAbove =
          apply_pending_change vm o.name
            ⟨((get_display_position vm r.name).getD r.position).x +
               Int.tdiv ((r.logical_size.width : Int) - (o.logical_size.width : Int)) 2,
             ((get_display_position vm r.name).getD r.position).y -
               (o.logical_size.height : Int)⟩)) ∧
    (firstOtherEnabled vm o = none →
       update_output vm .SnapLeft = vm ∧ update_output vm .SnapRight = vm ∧
       update_output vm .SnapAbove = vm ∧ update_output vm .SnapBelow = vm) := by
  constructor
  · intro r hr
    have href : get_reference_monitor vm =
        some ((get_display_position vm r.name).getD r.position, r.logical_size) := by
      unfold get_reference_monitor
      rw [hsel]
      simp [Option.bind, hr]
    constructor <;>
      · unfold update_output
        rw [hsel, href]
  · intro hnone
    have href : get_reference_monitor vm = none := by
      unfold get_reference_monitor
      rw [hsel]
      simp [Option.bind, hnone]
    refine ⟨?_, ?_, ?_, ?_⟩ <;>
      · unfold update_output
        rw [hsel, href]

/-- The moved output of the spec's geometry example: size 1080x1920. -/
def c7o : OutputState := ⟨"DP-1".toList, ⟨0, 0⟩, ⟨1080, 1920⟩, true, true, false⟩

/-- The reference output of the spec's geometry example: (0,0), 1920x1080. -/
def c7r : OutputState := ⟨"HDMI-1".toList, ⟨0, 0⟩, ⟨1920, 1080⟩, true, true, false⟩

def c7Vm : OutputViewModel := ⟨[c7o, c7r], 0, fun _ => none⟩

/-- Witness for C7 at the spec's worked example: SnapRight lands at
(1920, 0) and SnapAbove at (420, -1920). -/
theorem c7_snap_reference_geometry_witness :
    selected_output c7Vm = some c7o ∧
    ((∀ r : OutputState, firstOtherEnabled c7Vm c7o = some r →
       (update_output c7Vm .SnapRight =
          apply_pending_change c7Vm c7o.name
            ⟨((get_display_position c7Vm r.name).getD r.position).x + (r.logical_size.width : Int),
             ((get_display_position c7Vm r.name).getD r.position).y⟩) ∧
       (update_output c7Vm .SnapAbove =
          apply_pending_change c7Vm c7o.name
            ⟨((get_display_position c7Vm r.name).getD r.position).x +
               Int.tdiv ((r.logical_size.width : Int) - (c7o.logical_size.width : Int)) 2,
             ((get_display_position c7Vm r.name).getD r.position).y -
               (c7o.logical_size.height : Int)⟩)) ∧
     (firstOtherEnabled c7Vm c7o = none →
       update_output c7Vm .SnapLeft = c7Vm ∧ update_output c7Vm .SnapRight = c7Vm ∧
       update_output c7Vm .SnapAbove = c7Vm ∧ update_output c7Vm .SnapBelow = c7Vm)) ∧
    (update_output c7Vm .SnapRight).pending_changes c7o.name = some ⟨1920, 0⟩ ∧
    (update_output c7Vm .SnapAbove).pending_changes c7o.name = some ⟨420, -1920⟩ :=
  ⟨rfl, c7_snap_reference_geometry c7Vm c7o rfl, rfl, rfl⟩

/-! ## C9: a combo string round-trips through `Modifiers::parse` -/

theorem splitChar_ne_nil (sep : Char) (l : Str) : splitChar sep l ≠ [] := by
  induction l with
  | nil => simp [splitChar]
  | cons c rest ih =>
    simp only [splitChar]
    cases h : splitChar sep rest with
    | nil => exact absurd h ih
    | cons s ss =>
      by_cases hc : c = sep <;> simp [hc]

theorem splitChar_of_not_mem {sep : Char} {l : Str} (h : sep ∉ l) :
    splitChar sep l = [l] := by
  induction l with
  | nil => rfl
  | cons c rest ih =>
    have hc : c ≠ sep := fun hc => h (hc ▸ List.mem_cons_self c rest)
    have hrest : sep ∉ rest := fun hr => h (List.mem_cons_of_mem c hr)
    simp only [splitChar]
    rw [ih hrest]
    simp [hc]

theorem splitChar_append_cons (sep : Char) (x y : Str) :
    splitChar sep (x ++ sep :: y) = splitChar sep x ++ splitChar sep y := by
  induction x with
  | nil =>
    simp only [List.nil_append, splitChar]
    cases h : splitChar sep y with
    | nil => exact absurd h (splitChar_ne_nil sep y)
    | cons s ss => simp
  | cons c x ih =>
    simp only [List.cons_append, splitChar, List.append_eq]
    rw [ih]
    cases h : splitChar sep x with
    | nil => exact absurd h (splitChar_ne_nil sep x)
    | cons s ss => by_cases hc : c = sep <;> simp [hc]

theorem splitChar_joinPlus (names : List Str) (hne : names ≠ [])
    (hsep : ∀ s ∈ names, '+' ∉ s) : splitChar '+' (joinPlus names) = names := by
  induction names with
  | nil => exact absurd rfl hne
  | cons n rest ih =>
    cases rest with
    | nil =>
      exact splitChar_of_not_mem (hsep n (List.mem_cons_self n []))
    | cons m rest2 =>
      have hj : joinPlus (n :: m :: rest2) = n ++ '+' :: joinPlus (m :: rest2) := rfl
      rw [hj, splitChar_append_cons,
        splitChar_of_not_mem (hsep n (List.mem_cons_self n _)),
        ih (by simp) (fun s hs => hsep s (List.mem_cons_of_mem n hs))]
      rfl

/-- `Modifiers::parse` applied to a nonempty keyword join plus a key. -/
theorem parse_join_key (names : List Str) (key : Str) (hne : names ≠ [])
    (hsep : ∀ s ∈ names, '+' ∉ s) (hkey : '+' ∉ key) :
    Modifiers.parse (joinPlus names ++ '+' :: key) =
      (names.foldl applyModKeyword Modifiers.default, key) := by
  unfold Modifiers.parse splitPlus
  rw [splitChar_append_cons, splitChar_joinPlus names hne hsep,
    splitChar_of_not_mem hkey]
  simp

theorem c9_combo_round_trips (b : Keybinding) (hk : b.key ≠ [])
    (hplus : '+' ∉ b.key)
    (hmodkw : lower b.key ∉ ["mod".toList, "super".toList, "logo".toList,
      "ctrl".toList, "control".toList, "shift".toList, "alt".toList]) :
    Modifiers.parse b.combo = (b.modifiers, b.key) := by
  obtain ⟨m, key, props, act, ki⟩ := b
  simp only at hk hplus hmodkw ⊢
  unfold Keybinding.combo
  simp only
  by_cases hm : Modifiers.render m = []
  · have hmd : m = Modifiers.default := by
      obtain ⟨a, b, c, d⟩ := m
      cases a <;> cases b <;> cases c <;> cases d <;>
        first
          | rfl
          | (exfalso; revert hm; decide)
    rw [if_pos hm]
    unfold Modifiers.parse splitPlus
    rw [splitChar_of_not_mem hplus]
    simp [hmd]
  · rw [if_neg hm]
    have hr : Modifiers.render m = joinPlus (modKeywords m) := rfl
    have hne : modKeywords m ≠ [] := by
      intro hnil
      exact hm (by rw [hr, hnil]; rfl)
    have hsep : ∀ s ∈ modKeywords m, '+' ∉ s := by
      obtain ⟨a, b, c, d⟩ := m
      cases a <;> cases b <;> cases c <;> cases d <;> decide
    rw [hr, parse_join_key (modKeywords m) key hne hsep hplus]
    have hfold : (modKeywords m).foldl applyModKeyword Modifiers.default = m := by
      obtain ⟨a, b, c, d⟩ := m
      cases a <;> cases b <;> cases c <;> cases d <;> decide
    rw [hfold]

def c9Binding : Keybinding :=
  ⟨⟨true, true, true, false⟩, "T".toList, BindingProperties.default,
   .simple "quit".toList, none⟩

/-- Witness for C9: `"Mod+Ctrl+Shift+T"` parses back to its own parts. -/
theorem c9_combo_round_trips_witness :
    c9Binding.key ≠ [] ∧ '+' ∉ c9Binding.key ∧
    lower c9Binding.key ∉ ["mod".toList, "super".toList, "logo".toList,
      "ctrl".toList, "control".toList, "shift".toList, "alt".toList] ∧
    Modifiers.parse c9Binding.combo = (c9Binding.modifiers, c9Binding.key) :=
  ⟨by decide, by decide, by decide,
   c9_combo_round_trips c9Binding (by decide) (by decide) (by decide)⟩

/-! ## C5: deletes are order-of-declaration independent -/

theorem effCore_congr (c1 c2 : List KeybindingChange)
    (hdel : ∀ idx, isDeleted c1 idx = isDeleted c2 idx)
    (hmod : ∀ idx, modifiedAt c1 idx = modifiedAt c2 idx) :
    ∀ (k : Nat) (bs : List Keybinding), effCore c1 k bs = effCore c2 k bs := by
  intro k bs
  induction bs generalizing k with
  | nil => rfl
  | cons b rest ih =>
    simp only [effCore, hdel, hmod, ih]

theorem c5_delete_order_independent (bs : List Keybinding) (i j : Nat)
    (hij : i ≠ j) (hi : i < bs.length) (hj : j < bs.length) :
    effective_bindings ⟨bs, 0, 0, [], [.Delete i, .Delete j]⟩ =
      effective_bindings ⟨bs, 0, 0, [], [.Delete j, .Delete i]⟩ := by
  unfold effective_bindings
  rw [effCore_congr [.Delete i, .Delete j] [.Delete j, .Delete i]
    (fun idx => by simp only [isDeleted, List.any_cons, List.any_nil,
      Bool.or_false]; exact Bool.or_comm _ _)
    (fun idx => rfl) 0 bs]
  rfl

/-- Witness for C5 at `[Delete 1, Delete 0]` on a two-element base list. -/
theorem c5_delete_order_independent_witness :
    (1 ≠ 0 ∧ 1 < ([c10Binding, c9Binding] : List Keybinding).length ∧
      0 < ([c10Binding, c9Binding] : List Keybinding).length) ∧
    effective_bindings ⟨[c10Binding, c9Binding], 0, 0, [], [.Delete 1, .Delete 0]⟩ =
      effective_bindings ⟨[c10Binding, c9Binding], 0, 0, [], [.Delete 0, .Delete 1]⟩ :=
  ⟨⟨by decide, by decide, by decide⟩,
   c5_delete_order_independent [c10Binding, c9Binding] 1 0
     (by decide) (by decide) (by decide)⟩

/-! ## C3: resolving `[Delete 2, Modify 5 B']` (plus trailing Adds) -/

/-- Generic membership characterization of the base-list walk. -/
theorem mem_effCore {c : List KeybindingChange} :
    ∀ {bs : List Keybinding} {k : Nat} {e : EffectiveBinding},
      e ∈ effCore c k bs →
      ∃ i, i < bs.length ∧ e.original_index = some (k + i) ∧
        isDeleted c (k + i) = false ∧
        ((modifiedAt c (k + i) = some e.binding ∧ e.status = .Modified) ∨
         (modifiedAt c (k + i) = none ∧ bs.get? i = some e.binding ∧
          e.status = .Unchanged)) := by
  intro bs
  induction bs with
  | nil => intro k e h; simp [effCore] at h
  | cons b rest ih =>
    intro k e h
    simp only [effCore] at h
    by_cases hd : isDeleted c k
    · rw [if_pos hd] at h
      obtain ⟨i, hi, ho, hdel, hrest⟩ := ih h
      rw [show k + 1 + i = k + (i + 1) from by omega] at ho hdel hrest
      exact ⟨i + 1, by simpa using hi, ho, hdel, hrest⟩
    · rw [if_neg hd] at h
      cases hm : modifiedAt c k with
      | some nb =>
        rw [hm] at h
        rcases List.mem_cons.mp h with he | he
        · subst he
          exact ⟨0, by simp, by simp, by simpa using hd, Or.inl ⟨by simpa using hm, rfl⟩⟩
        · obtain ⟨i, hi, ho, hdel, hrest⟩ := ih he
          rw [show k + 1 + i = k + (i + 1) from by omega] at ho hdel hrest
          exact ⟨i + 1, by simpa using hi, ho, hdel, hrest⟩
      | none =>
        rw [hm] at h
        rcases List.mem_cons.mp h with he | he
        · subst he
          exact ⟨0, by simp, by simp, by simpa using hd,
            Or.inr ⟨by simpa using hm, by simp, rfl⟩⟩
        · obtain ⟨i, hi, ho, hdel, hrest⟩ := ih he
          rw [show k + 1 + i = k + (i + 1) from by omega] at ho hdel hrest
          exact ⟨i + 1, by simpa using hi, ho, hdel, hrest⟩

/-- The change list of claim C3: a delete, a modify, then any tail of adds. -/
def c3changes (B' : Keybinding) (adds : List Keybinding) : List KeybindingChange :=
  .Delete 2 :: .Modify 5 B' :: adds.map .Add

theorem c3_isDeleted (B' : Keybinding) (adds : List Keybinding) (idx : Nat) :
    isDeleted (c3changes B' adds) idx = (2 == idx) := by
  simp only [c3changes, isDeleted, List.any_cons, List.any_map]
  induction adds with
  | nil => simp
  | cons a rest _ => simp

theorem c3_modifiedAt (B' : Keybinding) (adds : List Keybinding) (idx : Nat) :
    modifiedAt (c3changes B' adds) idx = if 5 == idx then some B' else none := by
  simp only [c3changes, modifiedAt, List.foldl_cons]
  induction adds with
  | nil => simp
  | cons a rest ih => simpa using ih

theorem c3_addedList (B' : Keybinding) (adds : List Keybinding) :
    addedList (c3changes B' adds) =
      adds.map fun b => (⟨b, none, .Added⟩ : EffectiveBinding) := by
  simp only [c3changes, addedList, List.filterMap_cons]
  induction adds with
  | nil => simp
  | cons a rest ih => simpa using ih

theorem c3_len_hi (B' : Keybinding) (adds : List Keybinding) :
    ∀ (bs : List Keybinding) (k : Nat), 2 < k →
      (effCore (c3changes B' adds) k bs).length = bs.length := by
  intro bs
  induction bs with
  | nil => intro k _; rfl
  | cons b rest ih =>
    intro k hk
    simp only [effCore, c3_isDeleted]
    rw [if_neg (by simp; omega)]
    cases modifiedAt (c3changes B' adds) k <;>
      simp [ih (k + 1) (by omega)]

theorem c3_len (B' : Keybinding) (adds : List Keybinding) :
    ∀ (bs : List Keybinding) (k : Nat), k ≤ 2 → 2 < k + bs.length →
      (effCore (c3changes B' adds) k bs).length = bs.length - 1 := by
  intro bs
  induction bs with
  | nil => intro k _ _; rfl
  | cons b rest ih =>
    intro k hk hlen
    simp only [effCore, c3_isDeleted]
    by_cases h2 : k = 2
    · subst h2
      rw [if_pos (by simp)]
      simp [c3_len_hi B' adds rest 3 (by omega)]
    · rw [if_neg (by simp; omega)]
      have hrest : 1 ≤ rest.length := by simp at hlen; omega
      cases modifiedAt (c3changes B' adds) k <;>
        · simp only [List.length_cons]
          rw [ih (k + 1) (by omega) (by simp at hlen ⊢; omega)]
          omega

theorem c3_mem5 (B' : Keybinding) (adds : List Keybinding) :
    ∀ (bs : List Keybinding) (k : Nat), k ≤ 5 → 5 < k + bs.length →
      (⟨B', some 5, .Modified⟩ : EffectiveBinding) ∈ effCore (c3changes B' adds) k bs := by
  intro bs
  induction bs with
  | nil => intro k hk hlen; simp at hlen; omega
  | cons b rest ih =>
    intro k hk hlen
    simp only [effCore, c3_isDeleted]
    by_cases h5 : k = 5
    · subst h5
      rw [if_neg (by simp), c3_modifiedAt]
      simp
    · have hmem := ih (k + 1) (by omega) (by simp at hlen ⊢; omega)
      by_cases hd : ((2 == k) : Bool)
      · rw [if_pos hd]; exact hmem
      · rw [if_neg hd]
        cases modifiedAt (c3changes B' adds) k <;> exact List.mem_cons_of_mem _ hmem

theorem c3_delete2_modify5 (bs : List Keybinding) (B' : Keybinding)
    (adds : List Keybinding) (h5 : 5 < bs.length) :
    (effective_bindings ⟨bs, 0, 0, [], c3changes B' adds⟩).length =
        (bs.length - 1) + adds.length ∧
    (⟨B', some 5, .Modified⟩ : EffectiveBinding) ∈
        effective_bindings ⟨bs, 0, 0, [], c3changes B' adds⟩ ∧
    (∀ e ∈ effective_bindings ⟨bs, 0, 0, [], c3changes B' adds⟩,
       e.original_index = some 5 → e = ⟨B', some 5, .Modified⟩) ∧
    (∀ e ∈ effective_bindings ⟨bs, 0, 0, [], c3changes B' adds⟩,
       e.original_index ≠ some 2) ∧
    (∀ e ∈ effective_bindings ⟨bs, 0, 0, [], c3changes B' adds⟩,
       ∀ i, e.original_index = some i → i ≠ 5 →
         e.status = .Unchanged ∧ bs.get? i = some e.binding) ∧
    (effective_bindings ⟨bs, 0, 0, [], c3changes B' adds⟩).drop (bs.length - 1) =
        adds.map fun b => (⟨b, none, .Added⟩ : EffectiveBinding) := by
  have hlen : (effCore (c3changes B' adds) 0 bs).length = bs.length - 1 :=
    c3_len B' adds bs 0 (by omega) (by omega)
  refine ⟨?_, ?_, ?_, ?_, ?_, ?_⟩
  · simp only [effective_bindings, List.length_append, hlen, c3_addedList,
      List.length_map]
  · exact List.mem_append_left _ (c3_mem5 B' adds bs 0 (by omega) (by omega))
  · intro e he h5e
    rcases List.mem_append.mp he with hc | ha
    · obtain ⟨i, hi, ho, hdel, hrest⟩ := mem_effCore hc
      simp only [Nat.zero_add] at ho hdel hrest
      rw [ho] at h5e
      have hi5 : i = 5 := by simpa using h5e
      subst hi5
      rw [c3_modifiedAt] at hrest
      simp only [show ((5 == 5) : Bool) = true from rfl, if_pos] at hrest
      rcases hrest with ⟨hb, hs⟩ | ⟨hnone, _, _⟩
      · obtain ⟨eb, eo, es⟩ := e
        simp only at ho hs hb
        rw [ho, hs]
        simp at hb
        rw [hb]
      · simp at hnone
    · rw [c3_addedList] at ha
      obtain ⟨b, _, hb⟩ := List.mem_map.mp ha
      rw [← hb] at h5e
      simp at h5e
  · intro e he
    rcases List.mem_append.mp he with hc | ha
    · obtain ⟨i, hi, ho, hdel, hrest⟩ := mem_effCore hc
      simp only [Nat.zero_add] at ho hdel
      rw [c3_isDeleted] at hdel
      intro h2e
      rw [ho] at h2e
      have : i = 2 := by simpa using h2e
      subst this
      simp at hdel
    · rw [c3_addedList] at ha
      obtain ⟨b, _, hb⟩ := List.mem_map.mp ha
      rw [← hb]
      simp
  · intro e he i hoe hne5
    rcases List.mem_append.mp he with hc | ha
    · obtain ⟨j, hj, ho, hdel, hrest⟩ := mem_effCore hc
      simp only [Nat.zero_add] at ho hrest
      rw [ho] at hoe
      have hij : j = i := by simpa using hoe
      subst hij
      rw [c3_modifiedAt] at hrest
      rw [if_neg (by simpa using fun h => hne5 h.symm)] at hrest
      rcases hrest with ⟨hsome, _⟩ | ⟨_, hget, hs⟩
      · exact absurd hsome (by simp)
      · exact ⟨hs, hget⟩
    · rw [c3_addedList] at ha
      obtain ⟨b, _, hb⟩ := List.mem_map.mp ha
      rw [← hb] at hoe
      simp at hoe
  · simp only [effective_bindings]
    rw [List.drop_left' hlen, c3_addedList]

def c3Base : List Keybinding :=
  [c10Binding, c10Binding, c10Binding, c10Binding, c10Binding, c10Binding]

/-- Witness for C3 on a six-element base list with one trailing Add. -/
theorem c3_delete2_modify5_witness :
    5 < c3Base.length ∧
    ((effective_bindings ⟨c3Base, 0, 0, [], c3changes c9Binding [c10Binding]⟩).length =
        (c3Base.length - 1) + [c10Binding].length ∧
     (⟨c9Binding, some 5, .Modified⟩ : EffectiveBinding) ∈
        effective_bindings ⟨c3Base, 0, 0, [], c3changes c9Binding [c10Binding]⟩ ∧
     (∀ e ∈ effective_bindings ⟨c3Base, 0, 0, [], c3changes c9Binding [c10Binding]⟩,
        e.original_index = some 5 → e = ⟨c9Binding, some 5, .Modified⟩) ∧
     (∀ e ∈ effective_bindings ⟨c3Base, 0, 0, [], c3changes c9Binding [c10Binding]⟩,
        e.original_index ≠ some 2) ∧
     (∀ e ∈ effective_bindings ⟨c3Base, 0, 0, [], c3changes c9Binding [c10Binding]⟩,
        ∀ i, e.original_index = some i → i ≠ 5 →
          e.status = .Unchanged ∧ c3Base.get? i = some e.binding) ∧
     (effective_bindings ⟨c3Base, 0, 0, [], c3changes c9Binding [c10Binding]⟩).drop
         (c3Base.length - 1) =
       [c10Binding].map fun b => (⟨b, none, .Added⟩ : EffectiveBinding)) :=
  ⟨by decide, c3_delete2_modify5 c3Base c9Binding [c10Binding] (by decide)⟩

/-! ## C4: `write_keybindings` applies deletes (descending), then modifies
(ascending), then adds -/

def isDel : KeybindingChange → Bool
  | .Delete _ => true
  | _ => false

def isMod : KeybindingChange → Bool
  | .Modify _ _ => true
  | _ => false

def isAdd : KeybindingChange → Bool
  | .Add _ => true
  | _ => false

/-- The index a Delete/Modify change refers to. -/
def changeIdx : KeybindingChange → Nat
  | .Delete i => i
  | .Modify i _ => i
  | .Add _ => 0

theorem mem_stableInsert {cmp : α → α → Ordering} {a x : α} {l : List α} :
    x ∈ stableInsert cmp a l ↔ x = a ∨ x ∈ l := by
  induction l with
  | nil => simp [stableInsert]
  | cons b rest ih =>
    simp only [stableInsert]
    split
    · simp only [List.mem_cons, ih]
      tauto
    · simp only [List.mem_cons]

theorem stableInsert_perm (cmp : α → α → Ordering) (a : α) (l : List α) :
    (stableInsert cmp a l).Perm (a :: l) := by
  induction l with
  | nil => rfl
  | cons b t iht =>
    simp only [stableInsert]
    split
    · exact (iht.cons b).trans (List.Perm.swap a b t)
    · rfl

theorem stableSort_perm (cmp : α → α → Ordering) (l : List α) :
    (stableSort cmp l).Perm l := by
  induction l with
  | nil => rfl
  | cons a rest ih =>
    exact (stableInsert_perm cmp a (stableSort cmp rest)).trans (ih.cons a)

theorem stableInsert_append_stop {cmp : α → α → Ordering} {a : α} {l2 : List α}
    (l1 : List α) (h : ∀ b ∈ l2, cmp a b ≠ .gt) :
    stableInsert cmp a (l1 ++ l2) = stableInsert cmp a l1 ++ l2 := by
  induction l1 with
  | nil =>
    cases l2 with
    | nil => rfl
    | cons c t =>
      simp only [List.nil_append, stableInsert]
      rw [if_neg (h c (List.mem_cons_self c t))]
      rfl
  | cons b t ih =>
    simp only [List.cons_append, stableInsert, List.append_eq]
    split <;> first | rfl | simp [ih]

theorem stableInsert_append_pass {cmp : α → α → Ordering} {a : α} {l1 : List α}
    (l2 : List α) (h : ∀ b ∈ l1, cmp a b = .gt) :
    stableInsert cmp a (l1 ++ l2) = l1 ++ stableInsert cmp a l2 := by
  induction l1 with
  | nil => rfl
  | cons b t ih =>
    simp only [List.cons_append, stableInsert, List.append_eq]
    rw [if_pos (h b (List.mem_cons_self b t))]
    rw [ih (fun x hx => h x (List.mem_cons_of_mem b hx))]

theorem pairwise_stableInsert {R : α → α → Prop} {cmp : α → α → Ordering}
    (a : α) (l : List α)
    (htot : ∀ x y, cmp x y = .gt → R y x)
    (hstop : ∀ x y, cmp x y ≠ .gt → R x y)
    (htrans : ∀ x y z, R x y → R y z → R x z)
    (hl : l.Pairwise R) : (stableInsert cmp a l).Pairwise R := by
  induction l with
  | nil => simp [stableInsert]
  | cons b t ih =>
    simp only [stableInsert]
    rcases List.pairwise_cons.mp hl with ⟨hb, ht⟩
    split
    · rename_i hgt
      refine List.pairwise_cons.mpr ⟨?_, ih ht⟩
      intro x hx
      rcases mem_stableInsert.mp hx with hxa | hxt
      · subst hxa; exact htot _ _ hgt
      · exact hb x hxt
    · rename_i hngt
      refine List.pairwise_cons.mpr ⟨?_, hl⟩
      intro x hx
      rcases List.mem_cons.mp hx with hxb | hxt
      · subst hxb; exact hstop _ _ hngt
      · exact htrans _ _ _ (hstop _ _ hngt) (hb x hxt)

theorem pairwise_stableSort {R : α → α → Prop} {cmp : α → α → Ordering} (l : List α)
    (htot : ∀ x y, cmp x y = .gt → R y x)
    (hstop : ∀ x y, cmp x y ≠ .gt → R x y)
    (htrans : ∀ x y z, R x y → R y z → R x z) :
    (stableSort cmp l).Pairwise R := by
  induction l with
  | nil => exact List.Pairwise.nil
  | cons a t ih => exact pairwise_stableInsert a _ htot hstop htrans ih

theorem stableInsert_eq_cons {cmp : α → α → Ordering} {a : α} {l : List α}
    (h : ∀ b ∈ l, cmp a b ≠ .gt) : stableInsert cmp a l = a :: l := by
  cases l with
  | nil => rfl
  | cons c t =>
    simp only [stableInsert]
    rw [if_neg (h c (List.mem_cons_self c t))]

theorem cmp_del_not_gt (i : Nat) (c : KeybindingChange) (h : isDel c = false) :
    cmpChange (.Delete i) c ≠ .gt := by
  cases c <;> simp_all [cmpChange, isDel]

theorem cmp_mod_not_gt (i : Nat) (b : Keybinding) (c : KeybindingChange)
    (h : isAdd c = true) : cmpChange (.Modify i b) c ≠ .gt := by
  cases c <;> simp_all [cmpChange, isAdd]

theorem cmp_add_gt (b : Keybinding) (c : KeybindingChange)
    (h : isAdd c = false) : cmpChange (.Add b) c = .gt := by
  cases c <;> simp_all [cmpChange, isAdd]

theorem cmp_add_not_gt (b : Keybinding) (c : KeybindingChange)
    (h : isAdd c = true) : cmpChange (.Add b) c ≠ .gt := by
  cases c <;> simp_all [cmpChange, isAdd]

theorem cmp_mod_gt_del (i : Nat) (b : Keybinding) (c : KeybindingChange)
    (h : isDel c = true) : cmpChange (.Modify i b) c = .gt := by
  cases c <;> simp_all [cmpChange, isDel]

/-- The comparator decomposes every stable sort into deletes, then modifies,
then adds (adds keep their original order). -/
theorem stableSort_cmpChange_decomposition (l : List KeybindingChange) :
    stableSort cmpChange l =
      stableSort cmpChange (l.filter isDel) ++
        (stableSort cmpChange (l.filter isMod) ++ l.filter isAdd) := by
  induction l with
  | nil => rfl
  | cons c t ih =>
    have memD : ∀ x ∈ stableSort cmpChange (t.filter isDel), isDel x = true :=
      fun x hx => List.of_mem_filter ((stableSort_perm _ _).mem_iff.mp hx)
    have memM : ∀ x ∈ stableSort cmpChange (t.filter isMod), isMod x = true :=
      fun x hx => List.of_mem_filter ((stableSort_perm _ _).mem_iff.mp hx)
    have memA : ∀ x ∈ t.filter isAdd, isAdd x = true :=
      fun x hx => List.of_mem_filter hx
    cases c with
    | Delete i =>
      simp only [stableSort, ih, List.filter_cons]
      rw [stableInsert_append_stop _ ?hMA]
      · norm_num [isDel, isMod, isAdd]
      case hMA =>
        intro b hb
        rcases List.mem_append.mp hb with hbM | hbA
        · have := memM b hbM
          cases b <;> simp_all [cmpChange, isMod]
        · have := memA b hbA
          cases b <;> simp_all [cmpChange, isAdd]
    | Modify i nb =>
      simp only [stableSort, ih, List.filter_cons]
      rw [stableInsert_append_pass _ (fun b hb => cmp_mod_gt_del i nb b (memD b hb)),
        stableInsert_append_stop _ (fun b hb => cmp_mod_not_gt i nb b (memA b hb))]
      norm_num [isDel, isMod, isAdd]
    | Add nb =>
      simp only [stableSort, ih, List.filter_cons, ← List.append_assoc]
      rw [stableInsert_append_pass _ ?hDM, stableInsert_eq_cons
        (fun b hb => cmp_add_not_gt nb b (memA b hb))]
      · norm_num [isDel, isMod, isAdd]
      case hDM =>
        intro b hb
        rcases List.mem_append.mp hb with hbD | hbM
        · exact cmp_add_gt nb b (by have := memD b hbD; cases b <;> simp_all [isDel, isAdd])
        · exact cmp_add_gt nb b (by have := memM b hbM; cases b <;> simp_all [isMod, isAdd])

theorem cmpChange_total (x y : KeybindingChange) (h : cmpChange x y = .gt) :
    cmpChange y x ≠ .gt := by
  cases x <;> cases y <;>
    simp_all [cmpChange, Nat.compare_eq_gt] <;> omega

theorem cmpChange_trans (x y z : KeybindingChange) (hxy : cmpChange x y ≠ .gt)
    (hyz : cmpChange y z ≠ .gt) : cmpChange x z ≠ .gt := by
  cases x <;> cases y <;> cases z <;>
    simp_all [cmpChange, Nat.compare_eq_gt] <;> omega

/-- The deletes, sorted the way `write_keybindings` orders them. -/
def sortedDeletes (changes : List KeybindingChange) : List KeybindingChange :=
  stableSort cmpChange (changes.filter isDel)

/-- The modifies, sorted the way `write_keybindings` orders them. -/
def sortedModifies (changes : List KeybindingChange) : List KeybindingChange :=
  stableSort cmpChange (changes.filter isMod)

/-- The adds, in declaration order. -/
def addsOf (changes : List KeybindingChange) : List KeybindingChange :=
  changes.filter isAdd

theorem sortedDeletes_desc (changes : List KeybindingChange) :
    (sortedDeletes changes).Pairwise fun a b => changeIdx b ≤ changeIdx a := by
  have hp : (sortedDeletes changes).Pairwise fun a b => cmpChange a b ≠ .gt :=
    pairwise_stableSort _ cmpChange_total (fun _ _ h => h) cmpChange_trans
  refine hp.imp_of_mem ?_
  intro a b ha hb hR
  have ha' : isDel a = true :=
    List.of_mem_filter ((stableSort_perm _ _).mem_iff.mp ha)
  have hb' : isDel b = true :=
    List.of_mem_filter ((stableSort_perm _ _).mem_iff.mp hb)
  cases a <;> cases b <;>
    simp_all [isDel, cmpChange, changeIdx, Nat.compare_eq_gt] <;> omega

theorem sortedModifies_asc (changes : List KeybindingChange) :
    (sortedModifies changes).Pairwise fun a b => changeIdx a ≤ changeIdx b := by
  have hp : (sortedModifies changes).Pairwise fun a b => cmpChange a b ≠ .gt :=
    pairwise_stableSort _ cmpChange_total (fun _ _ h => h) cmpChange_trans
  refine hp.imp_of_mem ?_
  intro a b ha hb hR
  have ha' : isMod a = true :=
    List.of_mem_filter ((stableSort_perm _ _).mem_iff.mp ha)
  have hb' : isMod b = true :=
    List.of_mem_filter ((stableSort_perm _ _).mem_iff.mp hb)
  cases a <;> cases b <;>
    simp_all [isMod, cmpChange, changeIdx, Nat.compare_eq_gt] <;> omega

theorem foldl_adds_append (l : List KeybindingChange) (h : ∀ c ∈ l, isAdd c = true) :
    ∀ nodes : List KdlNode, l.foldl applyChange nodes =
      nodes ++ l.filterMap fun c =>
        match c with
        | KeybindingChange.Add b => some (create_keybinding_node b)
        | _ => none := by
  induction l with
  | nil => intro nodes; simp
  | cons c t ih =>
    intro nodes
    have hc := h c (List.mem_cons_self c t)
    cases c with
    | Add b =>
      simp only [List.foldl_cons, applyChange, List.filterMap_cons]
      rw [ih (fun x hx => h x (List.mem_cons_of_mem _ hx))]
      simp
    | Modify i nb => simp [isAdd] at hc
    | Delete i => simp [isAdd] at hc


/-- The binds node `write_keybindings` resolves at an index. -/
def bindsNodeAt (config : ConfigDocument) (i : Nat) : KdlNode :=
  (config.nodes.get? i).getD (.mk "binds".toList [] none)

/-- The binds children `write_keybindings` mutates. -/
def bindsChildrenAt (config : ConfigDocument) (i : Nat) : List KdlNode :=
  ((bindsNodeAt config i).children).getD []

theorem c4_write_applies_deletes_desc_then_modifies_asc_then_adds
    (config : ConfigDocument) (changes : List KeybindingChange) (fs : Fs)
    (binds_idx : Nat)
    (hfind : config.nodes.findIdx? (fun n => n.name = "binds".toList) = some binds_idx)
    (hdelv : ∀ i, KeybindingChange.Delete i ∈ changes →
      i < (bindsChildrenAt config binds_idx).length)
    (hmodv : ∀ i b, KeybindingChange.Modify i b ∈ changes →
      i < (bindsChildrenAt config binds_idx).length)
    (hdisj : ∀ i b, KeybindingChange.Delete i ∈ changes →
      KeybindingChange.Modify i b ∈ changes → False) :
    (stableSort cmpChange changes =
       sortedDeletes changes ++ (sortedModifies changes ++ addsOf changes)) ∧
    (sortedDeletes changes).Perm (changes.filter isDel) ∧
    ((sortedDeletes changes).Pairwise fun a b => changeIdx b ≤ changeIdx a) ∧
    (sortedModifies changes).Perm (changes.filter isMod) ∧
    ((sortedModifies changes).Pairwise fun a b => changeIdx a ≤ changeIdx b) ∧
    ((write_keybindings config changes fs).1.nodes =
      config.nodes.set binds_idx
        ((bindsNodeAt config binds_idx).withChildren
          ((addsOf changes).foldl applyChange
            ((sortedModifies changes).foldl applyChange
              ((sortedDeletes changes).foldl applyChange
                (bindsChildrenAt config binds_idx)))))) ∧
    (∀ nodes : List KdlNode,
      (addsOf changes).foldl applyChange nodes =
        nodes ++ (addsOf changes).filterMap fun c =>
          match c with
          | KeybindingChange.Add b => some (create_keybinding_node b)
          | _ => none) := by
  refine ⟨stableSort_cmpChange_decomposition changes, stableSort_perm _ _,
    sortedDeletes_desc changes, stableSort_perm _ _, sortedModifies_asc changes,
    ?_, foldl_adds_append _ (fun c hc => List.of_mem_filter hc)⟩
  unfold write_keybindings
  rw [hfind]
  simp only [stableSort_cmpChange_decomposition changes, List.foldl_append]
  rfl

def c4Node (s : String) : KdlNode := .mk s.toList [] none

def c4Config : ConfigDocument :=
  ⟨[.mk "binds".toList [] (some [c4Node "Mod+A", c4Node "Mod+B", c4Node "Mod+C"])]⟩

def c4Changes : List KeybindingChange :=
  [.Add c10Binding, .Delete 0, .Modify 1 c9Binding, .Delete 2]

def c4Fs : Fs := ⟨some [], none, false, false, none⟩

/-- Witness for C4 at a three-child binds block and a mixed change list. -/
theorem c4_write_applies_deletes_desc_then_modifies_asc_then_adds_witness :
    (c4Config.nodes.findIdx? (fun n => n.name = "binds".toList) = some 0) ∧
    ((stableSort cmpChange c4Changes =
       sortedDeletes c4Changes ++ (sortedModifies c4Changes ++ addsOf c4Changes)) ∧
     (sortedDeletes c4Changes).Perm (c4Changes.filter isDel) ∧
     ((sortedDeletes c4Changes).Pairwise fun a b => changeIdx b ≤ changeIdx a) ∧
     (sortedModifies c4Changes).Perm (c4Changes.filter isMod) ∧
     ((sortedModifies c4Changes).Pairwise fun a b => changeIdx a ≤ changeIdx b) ∧
     ((write_keybindings c4Config c4Changes c4Fs).1.nodes =
       c4Config.nodes.set 0
         ((bindsNodeAt c4Config 0).withChildren
           ((addsOf c4Changes).foldl applyChange
             ((sortedModifies c4Changes).foldl applyChange
               ((sortedDeletes c4Changes).foldl applyChange
                 (bindsChildrenAt c4Config 0)))))) ∧
     (∀ nodes : List KdlNode,
       (addsOf c4Changes).foldl applyChange nodes =
         nodes ++ (addsOf c4Changes).filterMap fun c =>
           match c with
           | KeybindingChange.Add b => some (create_keybinding_node b)
           | _ => none)) :=
  ⟨by decide,
   c4_write_applies_deletes_desc_then_modifies_asc_then_adds c4Config c4Changes c4Fs 0
     (by decide)
     (by intro i hi
         simp only [c4Changes, List.mem_cons, List.not_mem_nil, or_false] at hi
         have h02 : i = 0 ∨ i = 2 := by rcases hi with h | h | h | h <;> simp_all
         rcases h02 with h | h <;> subst h <;> decide)
     (by intro i b hi
         simp only [c4Changes, List.mem_cons, List.not_mem_nil, or_false] at hi
         have h1 : i = 1 := by rcases hi with h | h | h | h <;> simp_all
         subst h1; decide)
     (by intro i b hd hm
         simp only [c4Changes, List.mem_cons, List.not_mem_nil, or_false] at hd hm
         rcases hd with h | h | h | h <;> rcases hm with h2 | h2 | h2 | h2 <;> simp_all <;> omega)⟩

/-! ## C1: what a failed save preserves -/

/-- A projection separating the mutated from the unmutated document: the
number of children of the first binds block. -/
def bindsChildCount : Option ConfigDocument → Nat
  | some d =>
    match d.nodes.find? fun n => n.name = "binds".toList with
    | some n => ((n.children).getD []).length
    | none => 0
  | none => 0

theorem c1_failed_save_preserves_overlay_and_settings
    (st : AppKb) (fs : Fs) (reloadOk : Bool) :
    (∀ e, (save_keybindings_config st fs reloadOk).1.error = some (.saveFailed e) →
       (save_keybindings_config st fs reloadOk).1.kvm.pending_changes =
         st.kvm.pending_changes ∧
       (save_keybindings_config st fs reloadOk).1.kvm.bindings = st.kvm.bindings ∧
       (e = .backupFailed → (save_keybindings_config st fs reloadOk).2 = fs)) ∧
    ((save_keybindings_config st fs reloadOk).1.error = some .noConfigLoaded →
       (save_keybindings_config st fs reloadOk).1.kvm.pending_changes =
         st.kvm.pending_changes ∧
       (save_keybindings_config st fs reloadOk).1.kvm.bindings = st.kvm.bindings ∧
       (save_keybindings_config st fs reloadOk).2 = fs) := by
  unfold save_keybindings_config
  by_cases hpend : st.kvm.pending_changes = []
  · rw [if_pos hpend]
    exact ⟨fun e _ => ⟨rfl, rfl, fun _ => rfl⟩, fun _ => ⟨rfl, rfl, rfl⟩⟩
  · rw [if_neg hpend]
    cases hcfg : st.config with
    | none => exact ⟨fun e _ => ⟨rfl, rfl, fun _ => rfl⟩, fun _ => ⟨rfl, rfl, rfl⟩⟩
    | some config =>
      dsimp only
      rcases hw : write_keybindings config st.kvm.pending_changes fs with ⟨config', err, fs'⟩
      cases err with
      | none =>
        simp only
        constructor
        · intro e he
          exfalso
          cases reloadOk <;> simp at he
        · intro he
          exfalso
          cases reloadOk <;> simp at he
      | some e' =>
        simp only
        constructor
        · intro e he
          have he' : e' = e := by simpa using he
          subst he'
          refine ⟨?_, ?_, ?_⟩
          · first | rfl | trivial
          · first | rfl | trivial
          intro hb
          subst hb
          -- a backup failure happens inside `ConfigDocument.save`, which
          -- leaves the file system untouched
          unfold write_keybindings at hw
          rcases hfind : config.nodes.findIdx?
              (fun n => n.name = "binds".toList) with _ | idx
          · rw [hfind] at hw
            cases hw
          · rw [hfind] at hw
            simp only at hw
            unfold ConfigDocument.save at hw
            by_cases hdisk : fs.onDisk.isSome
            · rw [if_pos hdisk] at hw
              by_cases hcopy : fs.copyFails
              · rw [if_pos hcopy] at hw
                cases hw
                rfl
              · rw [if_neg hcopy] at hw
                split at hw <;> cases hw <;> simp_all
            · rw [if_neg hdisk] at hw
              split at hw <;> cases hw <;> simp_all
        · intro he
          exfalso
          simp at he

def c1Doc : ConfigDocument :=
  ⟨[.mk "binds".toList [] (some [c4Node "Mod+A"])]⟩

/-- App state with one pending delete against a one-binding config. -/
def c1St : AppKb := ⟨some c1Doc, ⟨[], 0, 0, [], [.Delete 0]⟩, none⟩

/-- A file system whose backup copy fails. -/
def c1Fs : Fs := ⟨some [], none, true, false, none⟩

/-- Witness for C1 (amended) at a concrete backup failure. -/
theorem c1_failed_save_preserves_overlay_and_settings_witness :
    ((save_keybindings_config c1St c1Fs true).1.error =
        some (.saveFailed .backupFailed)) ∧
    ((save_keybindings_config c1St c1Fs true).1.kvm.pending_changes =
        c1St.kvm.pending_changes ∧
     (save_keybindings_config c1St c1Fs true).1.kvm.bindings = c1St.kvm.bindings ∧
     (SaveErr.backupFailed = SaveErr.backupFailed →
        (save_keybindings_config c1St c1Fs true).2 = c1Fs)) :=
  ⟨by decide,
   (c1_failed_save_preserves_overlay_and_settings c1St c1Fs true).1
     SaveErr.backupFailed (by decide)⟩

/-- Counterexample to C1 as stated: the same failed save has already mutated
the in-memory document tree (the binds child is gone although the save
errored before touching the disk). -/
theorem c1_claim_false_in_memory_tree_mutated :
    ((save_keybindings_config c1St c1Fs true).1.error =
        some (.saveFailed .backupFailed)) ∧
    (save_keybindings_config c1St c1Fs true).2 = c1Fs ∧
    (save_keybindings_config c1St c1Fs true).1.config ≠ c1St.config :=
  ⟨by decide, by rfl,
   fun h => absurd (congrArg bindsChildCount h) (by decide)⟩

/-! ## C6: gradient-vs-solid precedence in the parser is order-dependent -/

/-- A focus-ring block listing the gradient before the solid color. -/
def c6DocGradientFirst : ConfigDocument :=
  ⟨[.mk "layout".toList []
    (some [.mk "focus-ring".toList [] (some [
      .mk "active-gradient".toList
        [⟨some "from".toList, .str "#a".toList⟩, ⟨some "to".toList, .str "#b".toList⟩] none,
      .mk "active-color".toList [⟨none, .str "#abc".toList⟩] none])])]⟩

/-- The same block with the solid color before the gradient. -/
def c6DocColorFirst : ConfigDocument :=
  ⟨[.mk "layout".toList []
    (some [.mk "focus-ring".toList [] (some [
      .mk "active-color".toList [⟨none, .str "#abc".toList⟩] none,
      .mk "active-gradient".toList
        [⟨some "from".toList, .str "#a".toList⟩, ⟨some "to".toList, .str "#b".toList⟩] none])])]⟩

/-- C6 fails on the code: when the solid `active-color` child follows the
`active-gradient` child, `parse_appearance` stores the solid color as the
effective color even though the gradient is present (and recorded in the
gradient detail field); only the opposite order yields the gradient. -/
theorem c6_gradient_precedence_is_order_dependent :
    (parse_appearance c6DocGradientFirst).focus_ring.active_color =
        .Solid "#abc".toList ∧
    (parse_appearance c6DocGradientFirst).focus_ring.active_gradient =
        some (.Gradient "#a".toList "#b".toList none none none) ∧
    (parse_appearance c6DocColorFirst).focus_ring.active_color =
        .Gradient "#a".toList "#b".toList none none none := by
  refine ⟨by decide, by decide, by decide⟩

/-! ## C2: writing a gradient over a solid slot -/

/-- Whether a color value is a gradient. -/
def isGradient : ColorValue → Bool
  | .Gradient _ _ _ _ _ => true
  | .Solid _ => false

/-- The four gradient-capable slots of the focus-ring and border blocks. -/
inductive GradSlot where
  | frActive
  | frInactive
  | bActive
  | bInactive
deriving DecidableEq

def GradSlot.blockName : GradSlot → Str
  | .frActive | .frInactive => "focus-ring".toList
  | .bActive | .bInactive => "border".toList

def GradSlot.colorName : GradSlot → Str
  | .frActive | .bActive => "active-color".toList
  | .frInactive | .bInactive => "inactive-color".toList

def GradSlot.gradName : GradSlot → Str
  | .frActive | .bActive => "active-gradient".toList
  | .frInactive | .bInactive => "inactive-gradient".toList

/-- The slot's effective color inside the settings. -/
def GradSlot.settingsColor (slot : GradSlot) (s : AppearanceSettings) : ColorValue :=
  match slot with
  | .frActive => s.focus_ring.active_color
  | .frInactive => s.focus_ring.inactive_color
  | .bActive => s.border.active_color
  | .bInactive => s.border.inactive_color

/-- The slot's gradient detail inside the settings. -/
def GradSlot.settingsGradient (slot : GradSlot) (s : AppearanceSettings) :
    Option ColorValue :=
  match slot with
  | .frActive => s.focus_ring.active_gradient
  | .frInactive => s.focus_ring.inactive_gradient
  | .bActive => s.border.active_gradient
  | .bInactive => s.border.inactive_gradient

/-- Does the first layout block hold a block of the slot's kind with a
solid-color entry (a string positional argument) for the slot? -/
def hasSolidEntry (doc : ConfigDocument) (slot : GradSlot) : Bool :=
  match doc.nodes.find? fun n => n.name = "layout".toList with
  | none => false
  | some ln =>
    ((ln.children).getD []).any fun blk =>
      blk.name = slot.blockName &&
        (((blk.children).getD []).any fun c =>
          c.name = slot.colorName && (parse_color_value c).isSome)

/-- The sub-nodes of a list carrying a given name, in order. -/
def namedNodes (nm : Str) (l : List KdlNode) : List KdlNode :=
  l.filterMap fun n => if n.name = nm then some n else none

/-! Generic preservation lemmas for `List.filterMap eff` under the writer's
update operations. -/

theorem filterMap_filter_of_none {β : Type} (eff : KdlNode → Option β)
    (p : KdlNode → Bool) (l : List KdlNode)
    (h : ∀ n, p n = false → eff n = none) :
    (l.filter p).filterMap eff = l.filterMap eff := by
  induction l with
  | nil => rfl
  | cons n rest ih =>
    by_cases hp : p n
    · simp [List.filter_cons, hp, List.filterMap_cons, ih]
    · simp only [List.filter_cons, Bool.not_eq_true] at *
      rw [if_neg (by simp [hp])]
      simp [List.filterMap_cons, h n (by simpa using hp), ih]

theorem filterMap_remove_node {β : Type} (eff : KdlNode → Option β)
    (nm : Str) (l : List KdlNode) (h : ∀ n, n.name = nm → eff n = none) :
    (remove_node l nm).filterMap eff = l.filterMap eff := by
  unfold remove_node
  apply filterMap_filter_of_none
  intro n hn
  apply h
  simpa using hn

theorem filterMap_append_single_none {β : Type} (eff : KdlNode → Option β)
    (l : List KdlNode) (n : KdlNode) (h : eff n = none) :
    (l ++ [n]).filterMap eff = l.filterMap eff := by
  simp [List.filterMap_append, List.filterMap_cons, h]

theorem filterMap_mapFirstNamed {β : Type} (eff : KdlNode → Option β)
    (nm : Str) (f : KdlNode → KdlNode) (l : List KdlNode)
    (h : ∀ n, n.name = nm → eff n = none)
    (hf : ∀ n, (f n).name = n.name) :
    (mapFirstNamed nm f l).filterMap eff = l.filterMap eff := by
  induction l with
  | nil => rfl
  | cons n rest ih =>
    unfold mapFirstNamed
    by_cases hn : n.name = nm
    · rw [if_pos hn]
      simp only [List.filterMap_cons, h n hn, h (f n) (by rw [hf n]; exact hn)]
    · rw [if_neg hn]
      simp only [List.filterMap_cons]
      cases eff n <;> simp [ih]

theorem filterMap_update_or_add {β : Type} (eff : KdlNode → Option β)
    (nm : Str) (v : KdlVal) (l : List KdlNode)
    (h : ∀ n, n.name = nm → eff n = none) :
    (update_or_add_simple_value l nm v).filterMap eff = l.filterMap eff := by
  unfold update_or_add_simple_value
  split
  · exact filterMap_mapFirstNamed eff nm _ l h
      (fun n => by cases n; rfl)
  · exact filterMap_append_single_none eff l _ (h _ rfl)

theorem filterMap_update_toggle {β : Type} (eff : KdlNode → Option β)
    (nm : Str) (b : Bool) (l : List KdlNode)
    (h : ∀ n, n.name = nm → eff n = none) :
    (update_toggle_node l nm b).filterMap eff = l.filterMap eff := by
  unfold update_toggle_node
  split
  · exact filterMap_append_single_none eff l _ (h _ rfl)
  · split
    · exact filterMap_remove_node eff nm l h
    · rfl

/-- The gradient node never carries a positional argument, so it is not a
solid-color entry. -/
theorem parse_color_value_gradientNode (nm gfrom gto : Str) (a : Option Int)
    (r c : Option Str) :
    parse_color_value (gradientNode nm gfrom gto a r c) = none := by
  unfold parse_color_value gradientNode KdlNode.getArg
  cases a <;> cases r <;> cases c <;> simp [KdlNode.entries, List.filter]

/-- Gradient nodes round-trip through `parse_gradient`. -/
theorem parse_gradient_gradientNode (nm gfrom gto : Str) (a : Option Int)
    (r c : Option Str) :
    parse_gradient (gradientNode nm gfrom gto a r c) =
      some (.Gradient gfrom gto a r c) := by
  unfold parse_gradient gradientNode KdlNode.getProp
  cases a <;> cases r <;> cases c <;>
    simp [KdlNode.entries, List.find?, KdlVal.asString, KdlVal.asInteger,
      Option.bind]

/-- The per-child effect of a block child on one color slot of the parse. -/
def effColor (colorName gradName : Str) (n : KdlNode) : Option ColorValue :=
  if n.name = colorName then parse_color_value n
  else if n.name = gradName then parse_gradient n
  else none

theorem filterMap_update_gradient_other {β : Type} (eff : KdlNode → Option β)
    (nm : Str) (g : ColorValue) (l : List KdlNode)
    (h : ∀ n, n.name = nm → eff n = none) :
    (update_gradient l nm g).filterMap eff = l.filterMap eff := by
  cases g with
  | Solid s => rfl
  | Gradient gf gt a r c =>
    unfold update_gradient
    rw [filterMap_append_single_none eff (remove_node l nm)
      (gradientNode nm gf gt a r c) (h (gradientNode nm gf gt a r c) rfl)]
    exact filterMap_remove_node eff nm l h

theorem filterMap_update_color_other {β : Type} (eff : KdlNode → Option β)
    (nm : Str) (cv : ColorValue) (l : List KdlNode)
    (h : ∀ n, n.name = nm → eff n = none) :
    (update_color l nm cv).filterMap eff = l.filterMap eff := by
  cases cv with
  | Solid s => exact filterMap_update_or_add eff nm _ l h
  | Gradient gf gt a r c =>
    exact filterMap_update_gradient_other eff nm (.Gradient gf gt a r c) l h

theorem filterMap_update_optional {β : Type} (eff : KdlNode → Option β)
    (nm : Str) (v : Option Int) (l : List KdlNode)
    (h : ∀ n, n.name = nm → eff n = none) :
    (update_optional_value l nm v).filterMap eff = l.filterMap eff := by
  cases v with
  | some n => exact filterMap_update_or_add eff nm _ l h
  | none => exact filterMap_remove_node eff nm l h

theorem filterMap_update_offset {β : Type} (eff : KdlNode → Option β)
    (x y : Int) (l : List KdlNode)
    (h : ∀ n, n.name = "offset".toList → eff n = none) :
    (update_offset l x y).filterMap eff = l.filterMap eff := by
  unfold update_offset
  rw [filterMap_append_single_none eff (remove_node l "offset".toList)
    (.mk "offset".toList [⟨some "x".toList, .int x⟩, ⟨some "y".toList, .int y⟩] none)
    (h _ rfl)]
  exact filterMap_remove_node eff _ l h

/-- After appending the gradient node for the slot, the slot's last parse
effect is that gradient, and any later slot-irrelevant op keeps it. -/
theorem getLast?_filterMap_append_gradNode (colorName gradName : Str)
    (hnc : colorName ≠ gradName)
    (l : List KdlNode) (gfrom gto : Str) (a : Option Int) (r c : Option Str) :
    ((l ++ [gradientNode gradName gfrom gto a r c]).filterMap
        (effColor colorName gradName)).getLast? =
      some (.Gradient gfrom gto a r c) := by
  rw [List.filterMap_append]
  have heff : effColor colorName gradName (gradientNode gradName gfrom gto a r c) =
      some (.Gradient gfrom gto a r c) := by
    unfold effColor
    rw [if_neg (by simp [gradientNode, KdlNode.name]; exact fun hh => hnc hh.symm),
      if_pos (by simp [gradientNode, KdlNode.name])]
    exact parse_gradient_gradientNode _ _ _ _ _ _
  simp [List.filterMap_cons, heff]

/-! Per-child projection lemmas for the block parsers. -/

theorem stepFocusRing_active (s : FocusRingSettings) (child : KdlNode) :
    (stepFocusRing s child).active_color =
      (effColor "active-color".toList "active-gradient".toList child).getD
        s.active_color := by
  unfold stepFocusRing effColor
  split_ifs <;> simp_all <;> (try split) <;> simp_all

theorem stepFocusRing_inactive (s : FocusRingSettings) (child : KdlNode) :
    (stepFocusRing s child).inactive_color =
      (effColor "inactive-color".toList "inactive-gradient".toList child).getD
        s.inactive_color := by
  unfold stepFocusRing effColor
  split_ifs <;> simp_all <;> (try split) <;> simp_all

theorem stepBorder_active (s : BorderSettings) (child : KdlNode) :
    (stepBorder s child).active_color =
      (effColor "active-color".toList "active-gradient".toList child).getD
        s.active_color := by
  unfold stepBorder effColor
  split_ifs <;> simp_all <;> (try split) <;> simp_all

theorem stepBorder_inactive (s : BorderSettings) (child : KdlNode) :
    (stepBorder s child).inactive_color =
      (effColor "inactive-color".toList "inactive-gradient".toList child).getD
        s.inactive_color := by
  unfold stepBorder effColor
  split_ifs <;> simp_all <;> (try split) <;> simp_all

/-- Folding a step function whose effect on one projection is `eff` reads
the last effect among the children. -/
theorem foldl_proj {σ β : Type} (step : σ → KdlNode → σ) (proj : σ → β)
    (eff : KdlNode → Option β)
    (hstep : ∀ s n, proj (step s n) = (eff n).getD (proj s)) :
    ∀ (ch : List KdlNode) (s : σ),
      proj (ch.foldl step s) = ((ch.filterMap eff).getLast?).getD (proj s) := by
  intro ch
  induction ch with
  | nil => intro s; rfl
  | cons c t ih =>
    intro s
    rw [List.foldl_cons, ih, hstep]
    cases hc : eff c with
    | none => simp [List.filterMap_cons, hc]
    | some v =>
      simp only [List.filterMap_cons, hc, Option.getD_some]
      cases ht : t.filterMap eff with
      | nil => simp
      | cons x xs =>
        simp only [List.getLast?_cons_cons]
        cases h2 : (x :: xs).getLast? with
        | none => simp at h2
        | some y => simp

/-! Membership lemmas for the writer's update operations. -/

theorem mem_mapFirstNamed {nm : Str} {f : KdlNode → KdlNode} {l : List KdlNode}
    {n : KdlNode} (h : n ∈ mapFirstNamed nm f l) :
    n ∈ l ∨ ∃ m, m ∈ l ∧ m.name = nm ∧ n = f m := by
  induction l with
  | nil => simp [mapFirstNamed] at h
  | cons b rest ih =>
    unfold mapFirstNamed at h
    by_cases hb : b.name = nm
    · rw [if_pos hb] at h
      rcases List.mem_cons.mp h with he | he
      · exact Or.inr ⟨b, List.mem_cons_self b rest, hb, he⟩
      · exact Or.inl (List.mem_cons_of_mem b he)
    · rw [if_neg hb] at h
      rcases List.mem_cons.mp h with he | he
      · exact Or.inl (he ▸ List.mem_cons_self b rest)
      · rcases ih he with h1 | ⟨m, hm, hmn, hfm⟩
        · exact Or.inl (List.mem_cons_of_mem b h1)
        · exact Or.inr ⟨m, List.mem_cons_of_mem b hm, hmn, hfm⟩

theorem mem_remove_node {l : List KdlNode} {nm : Str} {n : KdlNode}
    (h : n ∈ remove_node l nm) : n ∈ l :=
  List.mem_of_mem_filter h

theorem mem_update_or_add {l : List KdlNode} {nm : Str} {v : KdlVal} {n : KdlNode}
    (h : n ∈ update_or_add_simple_value l nm v) : n ∈ l ∨ n.name = nm := by
  unfold update_or_add_simple_value at h
  split at h
  · rcases mem_mapFirstNamed h with h1 | ⟨m, _, hmn, hfm⟩
    · exact Or.inl h1
    · subst hfm
      cases m
      exact Or.inr hmn
  · rcases List.mem_append.mp h with h1 | h1
    · exact Or.inl h1
    · simp at h1
      subst h1
      exact Or.inr rfl

theorem mem_update_toggle {l : List KdlNode} {nm : Str} {b : Bool} {n : KdlNode}
    (h : n ∈ update_toggle_node l nm b) : n ∈ l ∨ n.name = nm := by
  unfold update_toggle_node at h
  split at h
  · rcases List.mem_append.mp h with h1 | h1
    · exact Or.inl h1
    · simp at h1
      subst h1
      exact Or.inr rfl
  · split at h
    · exact Or.inl (mem_remove_node h)
    · exact Or.inl h

theorem mem_update_gradient {l : List KdlNode} {nm : Str} {g : ColorValue}
    {n : KdlNode} (h : n ∈ update_gradient l nm g) : n ∈ l ∨ n.name = nm := by
  cases g with
  | Solid s => exact Or.inl h
  | Gradient gf gt a r c =>
    unfold update_gradient at h
    rcases List.mem_append.mp h with h1 | h1
    · exact Or.inl (mem_remove_node h1)
    · simp at h1
      subst h1
      exact Or.inr rfl

theorem mem_update_color {l : List KdlNode} {nm : Str} {cv : ColorValue}
    {n : KdlNode} (h : n ∈ update_color l nm cv) : n ∈ l ∨ n.name = nm := by
  cases cv with
  | Solid s => exact mem_update_or_add h
  | Gradient gf gt a r c =>
    exact @mem_update_gradient l nm (.Gradient gf gt a r c) n h

/-! The slot's block children never keep a solid-color entry once the slot's
color is written as a gradient. -/

/-- Every node of the slot's color name parses to no solid color. -/
def noSolid (colorName : Str) (l : List KdlNode) : Prop :=
  ∀ n ∈ l, n.name = colorName → parse_color_value n = none

theorem noSolid_update_color_gradient (l : List KdlNode) (colorName : Str)
    (gf gt : Str) (a : Option Int) (r c : Option Str) :
    noSolid colorName (update_color l colorName (.Gradient gf gt a r c)) := by
  intro n hn hname
  unfold update_color update_gradient at hn
  rcases List.mem_append.mp hn with h1 | h1
  · exact absurd hname (by simpa [remove_node] using (List.mem_filter.mp h1).2)
  · simp at h1
    subst h1
    exact parse_color_value_gradientNode _ _ _ _ _ _

theorem noSolid_of_subset {colorName : Str} {l l' : List KdlNode}
    (hsub : ∀ n ∈ l', n ∈ l ∨ n.name ≠ colorName)
    (h : noSolid colorName l) : noSolid colorName l' := by
  intro n hn hname
  rcases hsub n hn with h1 | h1
  · exact h n h1 hname
  · exact absurd hname h1

theorem noSolid_pres_op {colorName nm : Str} {l l' : List KdlNode}
    (hne : nm ≠ colorName) (hmem : ∀ n ∈ l', n ∈ l ∨ n.name = nm)
    (h : noSolid colorName l) : noSolid colorName l' :=
  noSolid_of_subset
    (fun n hn => (hmem n hn).imp id (fun h2 => by rw [h2]; exact hne)) h

theorem getLast?_filterMap_update_gradient (colorName gradName : Str)
    (hnc : colorName ≠ gradName) (Y : List KdlNode) (gf gt : Str)
    (a : Option Int) (r c : Option Str) :
    ((update_gradient Y gradName (.Gradient gf gt a r c)).filterMap
        (effColor colorName gradName)).getLast? =
      some (.Gradient gf gt a r c) := by
  unfold update_gradient
  exact getLast?_filterMap_append_gradNode colorName gradName hnc _ gf gt a r c

/-- The focus-ring writer pipeline leaves the active slot's last parse
effect at the written gradient. -/
theorem focusRingBody_active_readback (s : FocusRingSettings) (ch : List KdlNode)
    (gf gt : Str) (a : Option Int) (r c : Option Str)
    (hag : s.active_gradient = some (.Gradient gf gt a r c)) :
    ((focusRingBody s ch).filterMap
        (effColor "active-color".toList "active-gradient".toList)).getLast? =
      some (.Gradient gf gt a r c) := by
  have hIG : ∀ n : KdlNode, n.name = "inactive-gradient".toList →
      effColor "active-color".toList "active-gradient".toList n = none := by
    intro n hn
    unfold effColor
    rw [if_neg (by rw [hn]; decide), if_neg (by rw [hn]; decide)]
  unfold focusRingBody
  rw [hag]
  cases hig : s.inactive_gradient with
  | none =>
    rw [filterMap_remove_node _ _ _ hIG]
    exact getLast?_filterMap_update_gradient _ _ (by decide) _ _ _ _ _ _
  | some g2 =>
    cases g2 with
    | Solid s2 =>
      exact getLast?_filterMap_update_gradient _ _ (by decide) _ _ _ _ _ _
    | Gradient g2f g2t g2a g2r g2c =>
      rw [filterMap_update_gradient_other _ _ _ _ hIG]
      exact getLast?_filterMap_update_gradient _ _ (by decide) _ _ _ _ _ _

/-- Same for the inactive slot, whose gradient op is the last writer op. -/
theorem focusRingBody_inactive_readback (s : FocusRingSettings) (ch : List KdlNode)
    (gf gt : Str) (a : Option Int) (r c : Option Str)
    (hig : s.inactive_gradient = some (.Gradient gf gt a r c)) :
    ((focusRingBody s ch).filterMap
        (effColor "inactive-color".toList "inactive-gradient".toList)).getLast? =
      some (.Gradient gf gt a r c) := by
  unfold focusRingBody
  rw [hig]
  exact getLast?_filterMap_update_gradient _ _ (by decide) _ _ _ _ _ _

/-- The border writer pipeline, active slot. -/
theorem borderBody_active_readback (s : BorderSettings) (ch : List KdlNode)
    (gf gt : Str) (a : Option Int) (r c : Option Str)
    (hag : s.active_gradient = some (.Gradient gf gt a r c)) :
    ((borderBody s ch).filterMap
        (effColor "active-color".toList "active-gradient".toList)).getLast? =
      some (.Gradient gf gt a r c) := by
  have hIG : ∀ n : KdlNode, n.name = "inactive-gradient".toList →
      effColor "active-color".toList "active-gradient".toList n = none := by
    intro n hn
    unfold effColor
    rw [if_neg (by rw [hn]; decide), if_neg (by rw [hn]; decide)]
  unfold borderBody
  rw [hag]
  cases hig : s.inactive_gradient with
  | none =>
    rw [filterMap_remove_node _ _ _ hIG]
    exact getLast?_filterMap_update_gradient _ _ (by decide) _ _ _ _ _ _
  | some g2 =>
    cases g2 with
    | Solid s2 =>
      exact getLast?_filterMap_update_gradient _ _ (by decide) _ _ _ _ _ _
    | Gradient g2f g2t g2a g2r g2c =>
      rw [filterMap_update_gradient_other _ _ _ _ hIG]
      exact getLast?_filterMap_update_gradient _ _ (by decide) _ _ _ _ _ _

/-- The border writer pipeline, inactive slot. -/
theorem borderBody_inactive_readback (s : BorderSettings) (ch : List KdlNode)
    (gf gt : Str) (a : Option Int) (r c : Option Str)
    (hig : s.inactive_gradient = some (.Gradient gf gt a r c)) :
    ((borderBody s ch).filterMap
        (effColor "inactive-color".toList "inactive-gradient".toList)).getLast? =
      some (.Gradient gf gt a r c) := by
  unfold borderBody
  rw [hig]
  exact getLast?_filterMap_update_gradient _ _ (by decide) _ _ _ _ _ _

theorem mem_gradient_opt {l : List KdlNode} {nm : Str} (og : Option ColorValue)
    {n : KdlNode}
    (h : n ∈ (match og with
              | some g => update_gradient l nm g
              | none => remove_node l nm)) : n ∈ l ∨ n.name = nm := by
  cases og with
  | none => exact Or.inl (mem_remove_node h)
  | some g => exact mem_update_gradient h

theorem mem_color_opt {l : List KdlNode} {nm : Str} (oc : Option ColorValue)
    {n : KdlNode}
    (h : n ∈ (match oc with
              | some cv => update_color l nm cv
              | none => remove_node l nm)) : n ∈ l ∨ n.name = nm := by
  cases oc with
  | none => exact Or.inl (mem_remove_node h)
  | some cv => exact mem_update_color h

theorem focusRingBody_noSolid_active (s : FocusRingSettings) (ch : List KdlNode)
    (gf gt : Str) (a : Option Int) (r c : Option Str)
    (hc : s.active_color = .Gradient gf gt a r c) :
    noSolid "active-color".toList (focusRingBody s ch) := by
  unfold focusRingBody
  rw [hc]
  refine noSolid_pres_op (by decide)
    (fun n hn => mem_gradient_opt s.inactive_gradient hn) ?_
  refine noSolid_pres_op (by decide)
    (fun n hn => mem_gradient_opt s.active_gradient hn) ?_
  refine noSolid_pres_op (by decide) (fun n hn => mem_update_color hn) ?_
  exact noSolid_update_color_gradient _ _ _ _ _ _ _

theorem focusRingBody_noSolid_inactive (s : FocusRingSettings) (ch : List KdlNode)
    (gf gt : Str) (a : Option Int) (r c : Option Str)
    (hc : s.inactive_color = .Gradient gf gt a r c) :
    noSolid "inactive-color".toList (focusRingBody s ch) := by
  unfold focusRingBody
  rw [hc]
  refine noSolid_pres_op (by decide)
    (fun n hn => mem_gradient_opt s.inactive_gradient hn) ?_
  refine noSolid_pres_op (by decide)
    (fun n hn => mem_gradient_opt s.active_gradient hn) ?_
  exact noSolid_update_color_gradient _ _ _ _ _ _ _

theorem borderBody_noSolid_active (s : BorderSettings) (ch : List KdlNode)
    (gf gt : Str) (a : Option Int) (r c : Option Str)
    (hc : s.active_color = .Gradient gf gt a r c) :
    noSolid "active-color".toList (borderBody s ch) := by
  unfold borderBody
  rw [hc]
  refine noSolid_pres_op (by decide)
    (fun n hn => mem_gradient_opt s.inactive_gradient hn) ?_
  refine noSolid_pres_op (by decide)
    (fun n hn => mem_gradient_opt s.active_gradient hn) ?_
  refine noSolid_pres_op (by decide)
    (fun n hn => mem_color_opt s.urgent_color hn) ?_
  refine noSolid_pres_op (by decide) (fun n hn => mem_update_color hn) ?_
  exact noSolid_update_color_gradient _ _ _ _ _ _ _

theorem borderBody_noSolid_inactive (s : BorderSettings) (ch : List KdlNode)
    (gf gt : Str) (a : Option Int) (r c : Option Str)
    (hc : s.inactive_color = .Gradient gf gt a r c) :
    noSolid "inactive-color".toList (borderBody s ch) := by
  unfold borderBody
  rw [hc]
  refine noSolid_pres_op (by decide)
    (fun n hn => mem_gradient_opt s.inactive_gradient hn) ?_
  refine noSolid_pres_op (by decide)
    (fun n hn => mem_gradient_opt s.active_gradient hn) ?_
  refine noSolid_pres_op (by decide)
    (fun n hn => mem_color_opt s.urgent_color hn) ?_
  exact noSolid_update_color_gradient _ _ _ _ _ _ _

/-- The node an upsert leaves behind for the name it targets. -/
def upsertResult (l : List KdlNode) (nm : Str)
    (body : List KdlNode → List KdlNode) : KdlNode :=
  match l.find? fun n => n.name = nm with
  | some n => n.withChildren (body ((n.children).getD []))
  | none => .mk nm [] (some (body []))

theorem name_withChildren (n : KdlNode) (ch : List KdlNode) :
    (n.withChildren ch).name = n.name := by
  cases n; rfl

theorem children_withChildren (n : KdlNode) (ch : List KdlNode) :
    (n.withChildren ch).children = some ch := by
  cases n; rfl

theorem children_upsertResult (l : List KdlNode) (nm : Str)
    (body : List KdlNode → List KdlNode) :
    ∃ src, (upsertResult l nm body).children = some (body src) := by
  unfold upsertResult
  cases l.find? fun n => n.name = nm with
  | none => exact ⟨[], rfl⟩
  | some n => exact ⟨(n.children).getD [], children_withChildren n _⟩

theorem name_upsertResult (l : List KdlNode) (nm : Str)
    (body : List KdlNode → List KdlNode) :
    (upsertResult l nm body).name = nm := by
  unfold upsertResult
  cases hf : l.find? fun n => n.name = nm with
  | none => rfl
  | some n =>
    rw [name_withChildren]
    exact by simpa using List.find?_some hf

theorem find?_upsert_self (l : List KdlNode) (nm : Str)
    (body : List KdlNode → List KdlNode) :
    (upsertBlock l nm body).find? (fun n => n.name = nm) =
      some (upsertResult l nm body) := by
  induction l with
  | nil => simp [upsertBlock, upsertResult, List.find?]
  | cons n rest ih =>
    unfold upsertBlock
    by_cases hn : n.name = nm
    · rw [if_pos hn]
      rw [List.find?_cons_of_pos _ (by simpa [name_withChildren] using hn)]
      unfold upsertResult
      rw [List.find?_cons_of_pos _ (by simpa using hn)]
    · rw [if_neg hn]
      rw [List.find?_cons_of_neg _ (by simpa using hn), ih]
      unfold upsertResult
      rw [List.find?_cons_of_neg _ (by simpa using hn)]

theorem namedNodes_upsert_self (l : List KdlNode) (nm : Str)
    (body : List KdlNode → List KdlNode)
    (h : (namedNodes nm l).length ≤ 1) :
    namedNodes nm (upsertBlock l nm body) = [upsertResult l nm body] := by
  induction l with
  | nil => simp [upsertBlock, upsertResult, namedNodes, List.find?]
  | cons n rest ih =>
    unfold upsertBlock
    by_cases hn : n.name = nm
    · rw [if_pos hn]
      have hrest : namedNodes nm rest = [] := by
        have hlen : (namedNodes nm rest).length = 0 := by
          unfold namedNodes at h ⊢
          rw [List.filterMap_cons, if_pos hn] at h
          simpa using h
        exact List.length_eq_zero.mp hlen
      unfold namedNodes at hrest ⊢
      rw [List.filterMap_cons, if_pos (by simpa [name_withChildren] using hn), hrest]
      unfold upsertResult
      rw [List.find?_cons_of_pos _ (by simpa using hn)]
    · rw [if_neg hn]
      have h' : (namedNodes nm rest).length ≤ 1 := by
        unfold namedNodes at h ⊢
        rw [List.filterMap_cons, if_neg hn] at h
        exact h
      unfold namedNodes at ih ⊢
      rw [List.filterMap_cons, if_neg hn, ih h']
      unfold upsertResult
      rw [List.find?_cons_of_neg _ (by simpa using hn)]

theorem namedNodes_upsert_other (l : List KdlNode) (nm other : Str)
    (hne : nm ≠ other) (body : List KdlNode → List KdlNode) :
    namedNodes other (upsertBlock l nm body) = namedNodes other l := by
  induction l with
  | nil => simp [upsertBlock, namedNodes, hne]
  | cons n rest ih =>
    unfold upsertBlock
    by_cases hn : n.name = nm
    · rw [if_pos hn]
      unfold namedNodes
      rw [List.filterMap_cons, List.filterMap_cons,
        if_neg (by rw [name_withChildren, hn]; exact hne),
        if_neg (by rw [hn]; exact hne)]
    · rw [if_neg hn]
      unfold namedNodes at ih ⊢
      rw [List.filterMap_cons, List.filterMap_cons, ih]

theorem mem_namedNodes {nm : Str} {l : List KdlNode} {n : KdlNode} :
    n ∈ namedNodes nm l ↔ n ∈ l ∧ n.name = nm := by
  unfold namedNodes
  rw [List.mem_filterMap]
  constructor
  · rintro ⟨m, hm, hsome⟩
    by_cases hmn : m.name = nm
    · rw [if_pos hmn] at hsome
      cases hsome
      exact ⟨hm, hmn⟩
    · rw [if_neg hmn] at hsome
      cases hsome
  · rintro ⟨hm, hn⟩
    exact ⟨n, hm, by rw [if_pos hn]⟩

theorem filterMap_eff_namedNodes {β : Type} (nm : Str) (f : KdlNode → β)
    (l : List KdlNode) :
    l.filterMap (fun n => if n.name = nm then some (f n) else none) =
      (namedNodes nm l).map f := by
  induction l with
  | nil => rfl
  | cons n rest ih =>
    unfold namedNodes at ih ⊢
    rw [List.filterMap_cons, List.filterMap_cons]
    by_cases hn : n.name = nm
    · rw [if_pos hn, if_pos hn, ih]
      rfl
    · rw [if_neg hn, if_neg hn, ih]

/-- Per-child effect of a layout child on the parsed focus-ring block. -/
theorem stepLayout_focus_ring (s : AppearanceSettings) (child : KdlNode) :
    (stepLayout s child).focus_ring =
      (if child.name = "focus-ring".toList then some (parse_focus_ring child)
       else none).getD s.focus_ring := by
  unfold stepLayout
  split_ifs <;> simp_all <;> (try split) <;> simp_all

/-- Per-child effect of a layout child on the parsed border block. -/
theorem stepLayout_border (s : AppearanceSettings) (child : KdlNode) :
    (stepLayout s child).border =
      (if child.name = "border".toList then some (parse_border child)
       else none).getD s.border := by
  unfold stepLayout
  split_ifs <;> simp_all <;> (try split) <;> simp_all

/-- After the whole layout pipeline the slot's block appears exactly once,
and its children are the corresponding block body's output. -/
theorem namedNodes_layoutBody (s : AppearanceSettings) (lc : List KdlNode)
    (blk : Str) (hblk : blk = "focus-ring".toList ∨ blk = "border".toList)
    (h : (namedNodes blk lc).length ≤ 1) :
    ∃ N src, namedNodes blk (layoutBody s lc) = [N] ∧
      N.children = some ((if blk = "focus-ring".toList then
        focusRingBody s.focus_ring else borderBody s.border) src) := by
  have hgaps : ∀ n : KdlNode, n.name = "gaps".toList →
      (if n.name = blk then some n else none) = none := by
    intro n hn
    rcases hblk with hb | hb <;> rw [if_neg (by rw [hn, hb]; decide)]
  have hcfc : ∀ n : KdlNode, n.name = "center-focused-column".toList →
      (if n.name = blk then some n else none) = none := by
    intro n hn
    rcases hblk with hb | hb <;> rw [if_neg (by rw [hn, hb]; decide)]
  have h2 : (namedNodes blk (update_or_add_simple_value
      (update_or_add_simple_value lc "gaps".toList (.int s.gaps))
      "center-focused-column".toList
      (.str s.center_focused_column.as_str))).length ≤ 1 := by
    unfold namedNodes
    rw [filterMap_update_or_add _ _ _ _ hcfc, filterMap_update_or_add _ _ _ _ hgaps]
    exact h
  unfold layoutBody update_focus_ring update_border update_shadow update_struts
  rcases hblk with hb | hb
  · subst hb
    rw [namedNodes_upsert_other _ _ _ (by decide),
      namedNodes_upsert_other _ _ _ (by decide),
      namedNodes_upsert_other _ _ _ (by decide),
      namedNodes_upsert_self _ _ _ h2]
    obtain ⟨src, hsrc⟩ := children_upsertResult
      (update_or_add_simple_value
        (update_or_add_simple_value lc "gaps".toList (.int s.gaps))
        "center-focused-column".toList (.str s.center_focused_column.as_str))
      "focus-ring".toList (focusRingBody s.focus_ring)
    exact ⟨_, src, rfl, by rw [hsrc]; simp⟩
  · subst hb
    have h3 : (namedNodes "border".toList (upsertBlock
        (update_or_add_simple_value
          (update_or_add_simple_value lc "gaps".toList (.int s.gaps))
          "center-focused-column".toList (.str s.center_focused_column.as_str))
        "focus-ring".toList (focusRingBody s.focus_ring))).length ≤ 1 := by
      rw [namedNodes_upsert_other _ _ _ (by decide)]
      exact h2
    rw [namedNodes_upsert_other _ _ _ (by decide),
      namedNodes_upsert_other _ _ _ (by decide),
      namedNodes_upsert_self _ _ _ h3]
    obtain ⟨src, hsrc⟩ := children_upsertResult
      (upsertBlock
        (update_or_add_simple_value
          (update_or_add_simple_value lc "gaps".toList (.int s.gaps))
          "center-focused-column".toList (.str s.center_focused_column.as_str))
        "focus-ring".toList (focusRingBody s.focus_ring))
      "border".toList (borderBody s.border)
    exact ⟨_, src, rfl, by rw [hsrc]; simp⟩

/-- Core of claim C2 (amended): folding the written layout children reads
the slot back as the written gradient, and no solid entry survives in the
slot's block. -/
theorem c2_layout_core (s : AppearanceSettings) (slot : GradSlot) (g : ColorValue)
    (hgcolor : isGradient (slot.settingsColor s) = true)
    (hgrad : slot.settingsGradient s = some g)
    (hgg : isGradient g = true)
    (src : List KdlNode)
    (hlen : (namedNodes slot.blockName src).length ≤ 1) :
    slot.settingsColor
        ((layoutBody s src).foldl stepLayout AppearanceSettings.default) = g ∧
    (∀ blkn ∈ layoutBody s src, blkn.name = slot.blockName →
      ∀ cnode ∈ (blkn.children).getD [], cnode.name = slot.colorName →
        parse_color_value cnode = none) := by
  cases hg : g with
  | Solid _ => rw [hg] at hgg; simp [isGradient] at hgg
  | Gradient gf gt ga gr gc =>
  cases slot with
  | frActive =>
    obtain ⟨N, bsrc, hN, hNch⟩ := namedNodes_layoutBody s src "focus-ring".toList
      (Or.inl rfl) hlen
    rw [if_pos rfl] at hNch
    have hgrad' : s.focus_ring.active_gradient = some (.Gradient gf gt ga gr gc) := by
      simpa [GradSlot.settingsGradient, hg] using hgrad
    cases hac : s.focus_ring.active_color with
    | Solid _ =>
      rw [show GradSlot.settingsColor GradSlot.frActive s = s.focus_ring.active_color
        from rfl, hac] at hgcolor
      simp [isGradient] at hgcolor
    | Gradient cf ct ca cr cc =>
    constructor
    · show ((layoutBody s src).foldl stepLayout AppearanceSettings.default).focus_ring.active_color = _
      rw [foldl_proj stepLayout (fun a => a.focus_ring)
        (fun n => if n.name = "focus-ring".toList then some (parse_focus_ring n) else none)
        stepLayout_focus_ring (layoutBody s src) AppearanceSettings.default]
      rw [filterMap_eff_namedNodes "focus-ring".toList parse_focus_ring
        (layoutBody s src), hN]
      simp only [List.map_cons, List.map_nil, List.getLast?_singleton, Option.getD_some]
      unfold parse_focus_ring
      rw [hNch]
      simp only [Option.getD_some]
      rw [foldl_proj stepFocusRing (fun a => a.active_color)
        (effColor "active-color".toList "active-gradient".toList)
        stepFocusRing_active (focusRingBody s.focus_ring bsrc)
        FocusRingSettings.default]
      rw [focusRingBody_active_readback s.focus_ring bsrc gf gt ga gr gc hgrad']
      rfl
    · intro blkn hb hname cnode hc hcn
      have hmem : blkn ∈ namedNodes "focus-ring".toList (layoutBody s src) :=
        mem_namedNodes.mpr ⟨hb, hname⟩
      rw [hN] at hmem
      simp only [List.mem_singleton] at hmem
      subst hmem
      rw [hNch] at hc
      simp only [Option.getD_some] at hc
      exact focusRingBody_noSolid_active s.focus_ring bsrc cf ct ca cr cc hac
        cnode hc hcn
  | frInactive =>
    obtain ⟨N, bsrc, hN, hNch⟩ := namedNodes_layoutBody s src "focus-ring".toList
      (Or.inl rfl) hlen
    rw [if_pos rfl] at hNch
    have hgrad' : s.focus_ring.inactive_gradient = some (.Gradient gf gt ga gr gc) := by
      simpa [GradSlot.settingsGradient, hg] using hgrad
    cases hac : s.focus_ring.inactive_color with
    | Solid _ =>
      rw [show GradSlot.settingsColor GradSlot.frInactive s = s.focus_ring.inactive_color
        from rfl, hac] at hgcolor
      simp [isGradient] at hgcolor
    | Gradient cf ct ca cr cc =>
    constructor
    · show ((layoutBody s src).foldl stepLayout AppearanceSettings.default).focus_ring.inactive_color = _
      rw [foldl_proj stepLayout (fun a => a.focus_ring)
        (fun n => if n.name = "focus-ring".toList then some (parse_focus_ring n) else none)
        stepLayout_focus_ring (layoutBody s src) AppearanceSettings.default]
      rw [filterMap_eff_namedNodes "focus-ring".toList parse_focus_ring
        (layoutBody s src), hN]
      simp only [List.map_cons, List.map_nil, List.getLast?_singleton, Option.getD_some]
      unfold parse_focus_ring
      rw [hNch]
      simp only [Option.getD_some]
      rw [foldl_proj stepFocusRing (fun a => a.inactive_color)
        (effColor "inactive-color".toList "inactive-gradient".toList)
        stepFocusRing_inactive (focusRingBody s.focus_ring bsrc)
        FocusRingSettings.default]
      rw [focusRingBody_inactive_readback s.focus_ring bsrc gf gt ga gr gc hgrad']
      rfl
    · intro blkn hb hname cnode hc hcn
      have hmem : blkn ∈ namedNodes "focus-ring".toList (layoutBody s src) :=
        mem_namedNodes.mpr ⟨hb, hname⟩
      rw [hN] at hmem
      simp only [List.mem_singleton] at hmem
      subst hmem
      rw [hNch] at hc
      simp only [Option.getD_some] at hc
      exact focusRingBody_noSolid_inactive s.focus_ring bsrc cf ct ca cr cc hac
        cnode hc hcn
  | bActive =>
    obtain ⟨N, bsrc, hN, hNch⟩ := namedNodes_layoutBody s src "border".toList
      (Or.inr rfl) hlen
    rw [if_neg (by decide)] at hNch
    have hgrad' : s.border.active_gradient = some (.Gradient gf gt ga gr gc) := by
      simpa [GradSlot.settingsGradient, hg] using hgrad
    cases hac : s.border.active_color with
    | Solid _ =>
      rw [show GradSlot.settingsColor GradSlot.bActive s = s.border.active_color
        from rfl, hac] at hgcolor
      simp [isGradient] at hgcolor
    | Gradient cf ct ca cr cc =>
    constructor
    · show ((layoutBody s src).foldl stepLayout AppearanceSettings.default).border.active_color = _
      rw [foldl_proj stepLayout (fun a => a.border)
        (fun n => if n.name = "border".toList then some (parse_border n) else none)
        stepLayout_border (layoutBody s src) AppearanceSettings.default]
      rw [filterMap_eff_namedNodes "border".toList parse_border
        (layoutBody s src), hN]
      simp only [List.map_cons, List.map_nil, List.getLast?_singleton, Option.getD_some]
      unfold parse_border
      rw [hNch]
      simp only [Option.getD_some]
      rw [foldl_proj stepBorder (fun a => a.active_color)
        (effColor "active-color".toList "active-gradient".toList)
        stepBorder_active (borderBody s.border bsrc) BorderSettings.default]
      rw [borderBody_active_readback s.border bsrc gf gt ga gr gc hgrad']
      rfl
    · intro blkn hb hname cnode hc hcn
      have hmem : blkn ∈ namedNodes "border".toList (layoutBody s src) :=
        mem_namedNodes.mpr ⟨hb, hname⟩
      rw [hN] at hmem
      simp only [List.mem_singleton] at hmem
      subst hmem
      rw [hNch] at hc
      simp only [Option.getD_some] at hc
      exact borderBody_noSolid_active s.border bsrc cf ct ca cr cc hac cnode hc hcn
  | bInactive =>
    obtain ⟨N, bsrc, hN, hNch⟩ := namedNodes_layoutBody s src "border".toList
      (Or.inr rfl) hlen
    rw [if_neg (by decide)] at hNch
    have hgrad' : s.border.inactive_gradient = some (.Gradient gf gt ga gr gc) := by
      simpa [GradSlot.settingsGradient, hg] using hgrad
    cases hac : s.border.inactive_color with
    | Solid _ =>
      rw [show GradSlot.settingsColor GradSlot.bInactive s = s.border.inactive_color
        from rfl, hac] at hgcolor
      simp [isGradient] at hgcolor
    | Gradient cf ct ca cr cc =>
    constructor
    · show ((layoutBody s src).foldl stepLayout AppearanceSettings.default).border.inactive_color = _
      rw [foldl_proj stepLayout (fun a => a.border)
        (fun n => if n.name = "border".toList then some (parse_border n) else none)
        stepLayout_border (layoutBody s src) AppearanceSettings.default]
      rw [filterMap_eff_namedNodes "border".toList parse_border
        (layoutBody s src), hN]
      simp only [List.map_cons, List.map_nil, List.getLast?_singleton, Option.getD_some]
      unfold parse_border
      rw [hNch]
      simp only [Option.getD_some]
      rw [foldl_proj stepBorder (fun a => a.inactive_color)
        (effColor "inactive-color".toList "inactive-gradient".toList)
        stepBorder_inactive (borderBody s.border bsrc) BorderSettings.default]
      rw [borderBody_inactive_readback s.border bsrc gf gt ga gr gc hgrad']
      rfl
    · intro blkn hb hname cnode hc hcn
      have hmem : blkn ∈ namedNodes "border".toList (layoutBody s src) :=
        mem_namedNodes.mpr ⟨hb, hname⟩
      rw [hN] at hmem
      simp only [List.mem_singleton] at hmem
      subst hmem
      rw [hNch] at hc
      simp only [Option.getD_some] at hc
      exact borderBody_noSolid_inactive s.border bsrc cf ct ca cr cc hac cnode hc hcn

/-- C2 (amended): writing settings whose slot color is a gradient and whose
slot gradient-detail field carries a gradient, over a document whose layout
block holds at most one block of the slot's kind, reads the slot back as
that gradient, and the written document no longer contains a solid-color
entry for the slot. -/
theorem c2_write_gradient_readback (doc : ConfigDocument)
    (s : AppearanceSettings) (slot : GradSlot) (g : ColorValue)
    (hgcolor : isGradient (slot.settingsColor s) = true)
    (hgrad : slot.settingsGradient s = some g)
    (hgg : isGradient g = true)
    (hsolid : hasSolidEntry doc slot = true)
    (huniq : ∀ ln, doc.nodes.find? (fun n => n.name = "layout".toList) = some ln →
        (namedNodes slot.blockName ((ln.children).getD [])).length ≤ 1) :
    slot.settingsColor (parse_appearance (write_appearance_doc doc s)) = g ∧
    hasSolidEntry (write_appearance_doc doc s) slot = false := by
  have hfind : (write_appearance_doc doc s).nodes.find?
      (fun n => n.name = "layout".toList) =
      some (upsertResult doc.nodes "layout".toList (layoutBody s)) :=
    find?_upsert_self _ _ _
  have main : ∀ src : List KdlNode,
      (namedNodes slot.blockName src).length ≤ 1 →
      (upsertResult doc.nodes "layout".toList (layoutBody s)).children =
        some (layoutBody s src) →
      slot.settingsColor (parse_appearance (write_appearance_doc doc s)) = g ∧
      hasSolidEntry (write_appearance_doc doc s) slot = false := by
    intro src hlen hch
    have hcore := c2_layout_core s slot g hgcolor hgrad hgg src hlen
    constructor
    · unfold parse_appearance
      rw [hfind]
      dsimp only
      unfold parse_layout_block
      rw [hch]
      exact hcore.1
    · unfold hasSolidEntry
      rw [hfind]
      dsimp only
      rw [hch]
      simp only [Option.getD_some]
      rw [List.any_eq_false]
      intro blk hblk
      by_cases hname : blk.name = slot.blockName
      · simp only [hname, decide_True, Bool.true_and]
        rw [Bool.not_eq_true, List.any_eq_false]
        intro cn hcn
        by_cases hcname : cn.name = slot.colorName
        · have hnone := hcore.2 blk hblk hname cn hcn hcname
          simp [hnone, hcname]
        · simp [hcname]
      · simp [hname]
  cases hf : doc.nodes.find? (fun n => n.name = "layout".toList) with
  | none =>
    refine main [] (by simp [namedNodes]) ?_
    unfold upsertResult
    rw [hf]
    simp
  | some ln =>
    refine main ((ln.children).getD []) (huniq ln hf) ?_
    unfold upsertResult
    rw [hf]
    exact children_withChildren ln _

def c2Layout : KdlNode :=
  .mk "layout".toList []
    (some [.mk "focus-ring".toList []
      (some [.mk "active-color".toList [⟨none, .str "#aaa".toList⟩] none])])

/-- A document whose focus-ring block holds a solid active color. -/
def c2Doc : ConfigDocument := ⟨[c2Layout]⟩

def c2Grad : ColorValue := .Gradient "#a".toList "#b".toList none none none

/-- Settings whose active slot color is a gradient but whose gradient detail
field is empty — exactly what the claim as stated quantifies over. -/
def c2BadSettings : AppearanceSettings :=
  { AppearanceSettings.default with
      focus_ring := { FocusRingSettings.default with active_color := c2Grad } }

/-- Settings carrying the gradient in both the color and the detail field. -/
def c2GoodSettings : AppearanceSettings :=
  { AppearanceSettings.default with
      focus_ring := { FocusRingSettings.default with
        active_color := c2Grad
        active_gradient := some c2Grad } }

/-- Counterexample to C2 as stated: the document holds a solid entry for the
active focus-ring slot and the written settings carry a Gradient as that
slot's color, yet reading the written document back yields a solid color
(the default), not a Gradient. -/
theorem c2_claim_false_readback_not_gradient :
    hasSolidEntry c2Doc GradSlot.frActive = true ∧
    isGradient (GradSlot.frActive.settingsColor c2BadSettings) = true ∧
    (GradSlot.frActive.settingsColor
        (parse_appearance (write_appearance_doc c2Doc c2BadSettings)) =
      .Solid "#7fc8ff".toList) ∧
    isGradient (GradSlot.frActive.settingsColor
        (parse_appearance (write_appearance_doc c2Doc c2BadSettings))) = false :=
  ⟨by decide, by decide, by decide, by decide⟩

/-- Witness for C2 (amended) at the same document with the gradient detail
field populated. -/
theorem c2_write_gradient_readback_witness :
    (isGradient (GradSlot.frActive.settingsColor c2GoodSettings) = true ∧
     GradSlot.frActive.settingsGradient c2GoodSettings = some c2Grad ∧
     isGradient c2Grad = true ∧
     hasSolidEntry c2Doc GradSlot.frActive = true) ∧
    (GradSlot.frActive.settingsColor
        (parse_appearance (write_appearance_doc c2Doc c2GoodSettings)) = c2Grad ∧
     hasSolidEntry (write_appearance_doc c2Doc c2GoodSettings)
        GradSlot.frActive = false) :=
  ⟨⟨by decide, by decide, by decide, by decide⟩,
   c2_write_gradient_readback c2Doc c2GoodSettings GradSlot.frActive c2Grad
     (by decide) (by decide) (by decide) (by decide)
     (by intro ln hln
         rw [show (c2Doc.nodes.find? fun n => n.name = "layout".toList) =
             some c2Layout from rfl] at hln
         cases hln
         decide)⟩
